import Mathlib

/-!
# Verification of the `gorm` text-field / touch-interaction core

A shallow embedding of `src/text_field.rs`: the UTF-8 text buffer with its
cursor/selection model, the touch gesture classifier (`TouchState`), the
scroll window, and the IME-facing operations (`surrounding_text`,
`delete_surrounding_text`, `commit_string`, `paste`, ...).

Modelling conventions:
* The buffer (`layout.text()`, a Rust `String`) is a `List Nat` of bytes;
  `isBoundary` is Rust's `str::is_char_boundary`.
* Rust `i32`/`u32`/`usize` indices are `Nat` where the code keeps them
  non-negative (all guards of the source are mirrored exactly, including
  `saturating_sub` as truncated `Nat` subtraction), and `Int` where signed
  arithmetic matters (touch byte-index deltas, word-scan comparisons).
* `f64` pixel quantities (positions, scroll offset, widths) are modelled as
  `ℤ`: every operation the code uses on them (add, sub, neg, square, `min`,
  `max`, comparisons) is exact on integral values, and all values the
  claims quantify or evaluate at are integral.
* `String::drain` panics when a range endpoint is not a char boundary; where
  a claim is about that fallibility (`delete_surrounding_text`) the model
  returns an `Option`.  The other editing operations only ever drain between
  boundaries (this is proved below), so they are modelled with total
  take/drop splicing.
* External collaborators (the pango shaping layer and the IME transport) are
  not part of the repository; where an operation needs them they are
  modelled from the spec's interface description (each such definition says
  so in its doc comment).
-/

namespace Gorm

/-- Whether a byte is a UTF-8 continuation byte (`0x80..=0xBF`), i.e. a
byte that is *not* the first byte of a character. -/
def isCont (b : Nat) : Bool := 0x80 ≤ b && b < 0xC0

/-- Rust's `str::is_char_boundary`: `true` at the end of the text, `false`
past the end, and determined by the byte at `i` otherwise. -/
def isBoundary (t : List Nat) (i : Nat) : Bool :=
  match t.drop i with
  | [] => i == t.length
  | b :: _ => !isCont b

/-- The upward boundary-correction loop
(`while start < text.len() && !text.is_char_boundary(start) { start += 1 }`,
also the `offset += 1` loop of `cursor_byte_index`).  For `i > t.length` the
Rust loop of `cursor_byte_index` would never terminate; that argument is
unreachable in the states the invariant below describes, and the model
returns `i` there. -/
def boundaryUpAux : Nat → List Nat → Nat → Nat
  | 0, _, i => i
  | fuel + 1, t, i => if isBoundary t i then i else boundaryUpAux fuel t (i + 1)

/-- See the comment above: scans upward from `i` to the first char
boundary; `t.length - i` units of fuel are exactly the iterations the Rust
loop can make before `i = t.length` (itself a boundary) stops it. -/
def boundaryUp (t : List Nat) (i : Nat) : Nat :=
  boundaryUpAux (t.length - i) t i

/-- The downward boundary-correction loop of `surrounding_text`
(`while end > 0 && !text.is_char_boundary(end) { end -= 1 }`). -/
def boundaryDown (t : List Nat) (i : Nat) : Nat :=
  match i with
  | 0 => 0
  | i + 1 => if isBoundary t (i + 1) then i + 1 else boundaryDown t i

/-- `take a t ++ drop b t`: the effect of `String::drain(a..b)` on the
bytes (total; the fallible variant is `drainOk` below). -/
def splice (a b : Nat) (t : List Nat) : List Nat :=
  t.take a ++ t.drop b

/-- The effect of `String::insert`/`insert_str` at byte index `i`. -/
def insertAt (i : Nat) (s t : List Nat) : List Nat :=
  t.take i ++ s ++ t.drop i

/-- Whether `String::drain(a..b)` succeeds (Rust panics when an endpoint is
out of bounds, inverted, or not a char boundary). -/
def drainOk (t : List Nat) (a b : Nat) : Bool :=
  a ≤ b && isBoundary t a && isBoundary t b

/-- UTF-8 encoding of a single character (what `String::insert(.., char)`
appends at the insertion point). -/
def utf8EncodeChar (c : Char) : List Nat :=
  if c.toNat < 0x80 then [c.toNat]
  else if c.toNat < 0x800 then [0xC0 + c.toNat / 64, 0x80 + c.toNat % 64]
  else if c.toNat < 0x10000 then
    [0xE0 + c.toNat / 4096, 0x80 + c.toNat / 64 % 64, 0x80 + c.toNat % 64]
  else
    [0xF0 + c.toNat / 262144, 0x80 + c.toNat / 4096 % 64,
      0x80 + c.toNat / 64 % 64, 0x80 + c.toNat % 64]

/-- UTF-8 encoding of a string of characters: the byte content of a Rust
`&str` argument (`paste`, `commit_string`). -/
def utf8Encode (s : List Char) : List Nat :=
  s.flatMap utf8EncodeChar

/-- Byte length of one encoded character, from its first byte (agrees with
Rust's `char_indices` stepping on well-formed text). -/
def utf8CharLen (b : Nat) : Nat :=
  if b < 0x80 then 1
  else if b < 0xC0 then 1
  else if b < 0xE0 then 2
  else if b < 0xF0 then 3
  else 4

/-- Decode the code point starting at the head of `l` (garbage in, garbage
out on malformed input, which Rust strings never contain). -/
def utf8DecodeChar (l : List Nat) : Char :=
  match l with
  | [] => Char.ofNat 0
  | b :: rest =>
    if b < 0x80 then Char.ofNat b
    else if b < 0xC0 then Char.ofNat 0
    else if b < 0xE0 then
      match rest with
      | b1 :: _ => Char.ofNat ((b - 0xC0) * 64 + (b1 - 0x80))
      | [] => Char.ofNat 0
    else if b < 0xF0 then
      match rest with
      | b1 :: b2 :: _ => Char.ofNat (((b - 0xE0) * 64 + (b1 - 0x80)) * 64 + (b2 - 0x80))
      | _ => Char.ofNat 0
    else
      match rest with
      | b1 :: b2 :: b3 :: _ =>
        Char.ofNat ((((b - 0xF0) * 64 + (b1 - 0x80)) * 64 + (b2 - 0x80)) * 64 + (b3 - 0x80))
      | _ => Char.ofNat 0

/-- Fuelled worker for `utf8Chars`; one unit of fuel per decoded character
suffices since every character consumes at least one byte. -/
def utf8CharsFuel : Nat → List Nat → Nat → List (Nat × Char)
  | 0, _, _ => []
  | _, [], _ => []
  | fuel + 1, b :: rest, i =>
    let n := utf8CharLen b
    (i, utf8DecodeChar (b :: rest)) :: utf8CharsFuel fuel (rest.drop (n - 1)) (i + n)

/-- Rust's `str::char_indices`: the (byte index, character) pairs of the
buffer, in order. -/
def utf8Chars (t : List Nat) : List (Nat × Char) :=
  utf8CharsFuel t.length t 0

/-- `char::is_alphanumeric` (Unicode Alphabetic ∪ Number).  Modelled from
the spec: "a character is alphanumeric per Unicode category"; the model
carries the ASCII part of the table, which covers every text the claims
evaluate. -/
def is_alphanumeric (c : Char) : Bool :=
  ('0' ≤ c && c ≤ '9') || ('a' ≤ c && c ≤ 'z') || ('A' ≤ c && c ≤ 'Z')

/-- 2-D pixel position (`Position<f64>`, exactly-represented values). -/
structure Pos where
  x : ℤ
  y : ℤ
deriving DecidableEq, Repr

instance : Sub Pos := ⟨fun a b => ⟨a.x - b.x, a.y - b.y⟩⟩

/-- Squared euclidean length, `delta.x.powi(2) + delta.y.powi(2)`. -/
def Pos.sq (p : Pos) : ℤ := p.x ^ 2 + p.y ^ 2

/-- `zwp_text_input_v3::ChangeCause`. -/
inductive ChangeCause where
  | InputMethod
  | Other
deriving DecidableEq, Repr

/-- Intention of a touch sequence (`TouchAction`). -/
inductive TouchAction where
  | Tap
  | DoubleTap
  | TripleTap
  | Drag
  | DragSelectionStart
  | DragSelectionEnd
  | Focus
deriving DecidableEq, Repr

/-- Touch event tracking (`TouchState`). -/
structure TouchState where
  action : TouchAction
  last_time : Nat
  last_position : Pos
  last_motion_position : Pos
  start_byte_index : Int
deriving DecidableEq, Repr

/-- `TouchState::default()` (`Tap`, zero times and positions). -/
def initTouchState : TouchState :=
  { action := .Tap, last_time := 0, last_position := ⟨0, 0⟩
    last_motion_position := ⟨0, 0⟩, start_byte_index := 0 }

/-- The two `[input]` constants the classifier reads from the
configuration (`Config::input`): `max_tap_distance` is already squared. -/
structure Config where
  max_tap_distance : ℤ
  max_multi_tap : Nat
deriving DecidableEq, Repr

/-- The configuration defaults (`400.`, `300ms`). -/
def defaultConfig : Config := { max_tap_distance := 400, max_multi_tap := 300 }

/-- The state of `TextField` that the text/touch core reads or writes.
The rendering-only fields (`event_loop`, `texture`, `scale`,
`submit_handler`, the font data inside `layout`) are external collaborators
and are omitted; of `layout` only its text content matters here and it is
the `text` field. -/
structure TextField where
  text : List Nat
  cursor_index : Nat
  cursor_offset : Nat
  scroll_offset : ℤ
  selection : Option (Nat × Nat)
  preedit : List Nat × Int × Int
  change_cause : ChangeCause
  touch_state : TouchState
  width : ℤ
  focused : Bool
  text_input_dirty : Bool
  dirty : Bool
deriving DecidableEq, Repr

/-- Maximum number of surrounding bytes submitted to IME
(`MAX_SURROUNDING_BYTES`). -/
def MAX_SURROUNDING_BYTES : Nat := 4000

namespace TextField

/-- `TextField::cursor_byte_index`: translate a `(index, offset)` cursor
into a byte offset, bumping a positive character offset forward to the next
char boundary. -/
def cursorByteIndex (t : List Nat) (index offset : Nat) : Nat :=
  if 0 < offset then boundaryUp t (index + offset) else index

/-- `TextField::cursor_index()` (the method, not the field): the current
cursor's byte offset. -/
def cursor_byte (st : TextField) : Nat :=
  cursorByteIndex st.text st.cursor_index st.cursor_offset

/-- Number of characters in a byte list: the count of non-continuation
bytes (on well-formed text, its character count). -/
def charCount (t : List Nat) : Nat :=
  (t.filter fun b => !isCont b).length

/-- Modelled from the spec: the external text-shaping provider's pixel
metrics ("compute pixel size of a byte range").  A fixed-advance layout:
each character is 10 pixels wide; `cursorX t i` is the x position of the
caret before byte `i`, `contentWidth` the full pixel width
(`layout.pixel_size().0`). -/
def cursorX (t : List Nat) (i : Nat) : ℤ :=
  10 * charCount (t.take i)

/-- Modelled from the spec: full pixel width of the laid-out text
(`layout.pixel_size().0`), consistent with `cursorX`. -/
def contentWidth (t : List Nat) : ℤ :=
  10 * charCount t

/-- `TextField::clamp_scroll_offset`. -/
def clamp_scroll_offset (st : TextField) : TextField :=
  let min_offset : ℤ := -(max (contentWidth st.text - st.width) 0)
  let clamped := max (min st.scroll_offset 0) min_offset
  { st with dirty := st.dirty || decide (clamped ≠ st.scroll_offset)
            scroll_offset := clamped }

/-- `TextField::update_scroll_offset_to`: scroll a single caret position
back into the visible range, then clamp. -/
def update_scroll_offset_to (st : TextField) (cursor_index : Nat) : TextField :=
  let cursor_x := cursorX st.text cursor_index
  let delta := cursor_x + st.scroll_offset - st.width
  let st :=
    if 0 < delta then
      { st with scroll_offset := st.scroll_offset - delta, dirty := true }
    else if cursor_x + st.scroll_offset < 0 then
      { st with scroll_offset := -cursor_x, dirty := true }
    else st
  clamp_scroll_offset st

/-- Variant of `update_scroll_offset_to` for the signed preedit cursor
fields (`i32` in the source; negative values clamp to position 0 in the
layout query). -/
def update_scroll_offset_to_int (st : TextField) (cursor_index : Int) : TextField :=
  update_scroll_offset_to st cursor_index.toNat

/-- `TextField::update_scroll_offset`: make the selection boundaries, the
preedit boundaries, or the cursor visible (in that precedence order). -/
def update_scroll_offset (st : TextField) : TextField :=
  match st.selection with
  | some (s, e) => update_scroll_offset_to (update_scroll_offset_to st s) e
  | none =>
    if st.preedit.1.isEmpty then
      update_scroll_offset_to st st.cursor_byte
    else
      update_scroll_offset_to_int (update_scroll_offset_to_int st st.preedit.2.1)
        st.preedit.2.2

/-- `TextField::clear_selection`. -/
def clear_selection (st : TextField) : TextField :=
  { st with selection := none, text_input_dirty := true, dirty := true }

/-- `TextField::select` with the range bounds already resolved to the
signed pair `(start, end)` the source computes from the `RangeBounds`
argument (`..` resolves to `(i32::MIN, i32::MAX)`). -/
def select (st : TextField) (a b : Int) : TextField :=
  let s := max a 0
  let e := min b (st.text.length : Int)
  if s < e then
    let st := { st with selection := some (s.toNat, e.toNat) }
    let st := st.update_scroll_offset
    { st with text_input_dirty := true, dirty := true }
  else
    st.clear_selection

/-- `TextField::select(..)` (select the whole buffer). -/
def select_all (st : TextField) : TextField :=
  -- `Bound::Unbounded` resolves to `i32::MIN`/`i32::MAX`; any values below 0
  -- and above the text length (which is far below `i32::MAX`) are identical.
  st.select (-2147483648) 2147483647

/-- `TextField::set_focused`. -/
def set_focused (st : TextField) (focused : Bool) : TextField :=
  let st :=
    if focused && !st.focused then st.select_all
    else if !focused && st.focused then st.clear_selection
    else st
  { st with focused := focused, text_input_dirty := true, dirty := true }

/-- `TextField::submit`: hand the text to the external submit handler
(which does not touch the field's state) and drop focus. -/
def submit (st : TextField) : TextField :=
  st.set_focused false

/-- `TextField::delete_selected`: remove the selected byte range and place
the cursor at its start (one character earlier, with `offset = 1`, when the
selection reached the end of the text and the text is non-empty). -/
def delete_selected (st : TextField) (sel : Nat × Nat) : TextField :=
  if 0 < sel.1 && sel.1 == (splice sel.1 sel.2 st.text).length then
    { st with text := splice sel.1 sel.2 st.text,
              cursor_index := sel.1 - 1, cursor_offset := 1,
              text_input_dirty := true, dirty := true }
  else
    { st with text := splice sel.1 sel.2 st.text,
              cursor_index := sel.1, cursor_offset := 0,
              text_input_dirty := true, dirty := true }

/-- `TextField::selection_text`: the bytes of the active selection. -/
def selection_text (st : TextField) : Option (List Nat) :=
  match st.selection with
  | none => none
  | some (s, e) => some ((st.text.drop s).take (e - s))

/-- Modelled from the spec: the external text-shaping provider's single
grapheme-aware cursor step (`pango::Layout::move_cursor_visually`): "perform
one grapheme/bidi-aware cursor step from `(index, offset)` in a given
direction".  The model steps one character boundary (graphemes are single
characters here) and signals leaving the text with `none`, which stands for
the out-of-`[0, i32::MAX)` indices pango returns at the edges. -/
def moveCursorVisually (t : List Nat) (index offset : Nat) (dir : Int) :
    Option (Nat × Nat) :=
  if 0 < dir then
    if cursorByteIndex t index offset < t.length then
      some (boundaryUp t (cursorByteIndex t index offset + 1), 0)
    else none
  else
    if 0 < cursorByteIndex t index offset then
      some (boundaryDown t (cursorByteIndex t index offset - 1), 0)
    else none

/-- One iteration of the `move_cursor` loop body. -/
def moveCursorStep (st : TextField) (dir : Int) : TextField :=
  match moveCursorVisually st.text st.cursor_index st.cursor_offset dir with
  | some (i, o) => { st with cursor_index := i, cursor_offset := o }
  | none => st

/-- `TextField::move_cursor`: `|positions|` single steps in the sign's
direction (a step that would leave the valid range leaves the cursor where
it is, like the source's `break`), then scroll the cursor into view. -/
def move_cursor (st : TextField) (positions : Int) : TextField :=
  let st := (moveCursorStep · positions)^[positions.natAbs] st
  let st := st.update_scroll_offset
  { st with text_input_dirty := true, dirty := true }

/-- The keys whose handling the claims are about.  `chr c` is a keysym with
`key_char() == Some(c)`; the copy/paste clipboard combinations only touch
external state and are omitted, as are the modifier guards (the claims all
concern unmodified presses). -/
inductive Key where
  | ret
  | left
  | right
  | backspace
  | del
  | chr (c : Char)
deriving DecidableEq, Repr

/-- `TextField::press_key` (for unmodified keys). -/
def press_key (st : TextField) (key : Key) : TextField :=
  match key with
  | .ret => st.submit
  | .left =>
    let st :=
      match st.selection with
      | some (s, _) =>
        { st with selection := none, cursor_index := s, cursor_offset := 0 }
      | none => ({ st with selection := none } : TextField).move_cursor (-1)
    { st with text_input_dirty := true, dirty := true }
  | .right =>
    let st :=
      match st.selection with
      | some (_, e) =>
        let st := { st with selection := none }
        if st.text.length ≤ e then
          { st with cursor_index := st.text.length - 1, cursor_offset := 1 }
        else
          { st with cursor_index := e, cursor_offset := 0 }
      | none => ({ st with selection := none } : TextField).move_cursor 1
    { st with text_input_dirty := true, dirty := true }
  | .backspace =>
    let st :=
      match st.selection with
      | some sel => ({ st with selection := none } : TextField).delete_selected sel
      | none =>
        let end_index := st.cursor_byte
        let st := st.move_cursor (-1)
        let start_index := st.cursor_byte
        let st := { st with text := splice start_index end_index st.text }
        st.update_scroll_offset
    { st with text_input_dirty := true, dirty := true }
  | .del =>
    match st.selection with
    | some sel =>
      let st := ({ st with selection := none } : TextField).delete_selected sel
      { st with text_input_dirty := true, dirty := true }
    | none =>
      -- Ignore DEL if cursor is at the end of the input (note: the source
      -- compares against the raw `cursor_index + cursor_offset` sum).
      if st.text.length == st.cursor_index + st.cursor_offset then st
      else
        let start_index := st.cursor_byte
        let st := st.move_cursor 1
        let end_index := st.cursor_byte
        let st := st.move_cursor (-1)
        let st := { st with text := splice start_index end_index st.text }
        { st with text_input_dirty := true, dirty := true }
  | .chr c =>
    let st :=
      match st.selection with
      | some sel => ({ st with selection := none } : TextField).delete_selected sel
      | none => st
    let index := st.cursor_byte
    let st := { st with text := insertAt index (utf8EncodeChar c) st.text }
    let st := st.move_cursor 1
    { st with text_input_dirty := true, dirty := true }

/-- `TextField::paste`, on the bytes of the pasted `&str`. -/
def pasteBytes (st : TextField) (bytes : List Nat) : TextField :=
  let st :=
    match st.selection with
    | some sel => ({ st with selection := none } : TextField).delete_selected sel
    | none => st
  let index := st.cursor_byte
  let st := { st with text := insertAt index bytes st.text }
  let st := { st with cursor_index := st.cursor_index + bytes.length }
  let st := st.update_scroll_offset
  { st with text_input_dirty := true, dirty := true }

/-- `TextField::paste` (a `&str` argument is the UTF-8 encoding of its
characters). -/
def paste (st : TextField) (s : List Char) : TextField :=
  st.pasteBytes (utf8Encode s)

/-- `TextField::commit_string`. -/
def commit_string (st : TextField) (s : List Char) : TextField :=
  ({ st with change_cause := .InputMethod } : TextField).paste s

/-- `TextField::delete_surrounding_text`.  Returns `none` when one of the
two `String::drain` calls panics (a range endpoint off a char boundary);
the length arguments themselves are clamped to the buffer bounds exactly as
in the source (`min` against the length, `saturating_sub` against 0). -/
def delete_surrounding_text (st : TextField) (before_length after_length : Nat) :
    Option TextField :=
  -- `end` is clamped to the text length (`min`), `start` to 0
  -- (`saturating_sub`); the two `drain` calls panic (`none`) off char
  -- boundaries.  The after-cursor bytes are drained first, then the
  -- before-cursor bytes of the resulting text.
  if drainOk st.text st.cursor_byte
      (min (st.cursor_byte + after_length) st.text.length) then
    if drainOk
        (splice st.cursor_byte (min (st.cursor_byte + after_length) st.text.length)
          st.text)
        (st.cursor_byte - before_length) st.cursor_byte then
      some { TextField.update_scroll_offset
        { st with
          text := splice (st.cursor_byte - before_length) st.cursor_byte
            (splice st.cursor_byte
              (min (st.cursor_byte + after_length) st.text.length) st.text)
          cursor_index := st.cursor_byte - before_length
          cursor_offset := 0 } with
        change_cause := .InputMethod, text_input_dirty := true, dirty := true }
    else none
  else none

/-- `TextField::set_preedit_string`. -/
def set_preedit_string (st : TextField) (text : List Nat)
    (cursor_begin cursor_end : Int) : TextField :=
  let st :=
    if !text.isEmpty then
      match st.selection with
      | some sel => ({ st with selection := none } : TextField).delete_selected sel
      | none => st
    else st
  let st := { st with preedit := (text, cursor_begin, cursor_end) }
  let st := st.update_scroll_offset
  { st with text_input_dirty := true, dirty := true }

/-- The `end` index of the `surrounding_text` window: up to half the budget
after the cursor, truncated back to a char boundary. -/
def surroundingEnd (t : List Nat) (cursor_index : Nat) : Nat :=
  if t.length ≤ cursor_index + MAX_SURROUNDING_BYTES / 2 then t.length
  else boundaryDown t (cursor_index + MAX_SURROUNDING_BYTES / 2)

/-- The `start` index of the `surrounding_text` window: the remaining
budget before the cursor, truncated forward to a char boundary.  (In the
source `MAX_SURROUNDING_BYTES - (end - cursor_index)` is a `usize`
subtraction; it cannot underflow when the cursor sits on a char boundary,
which every theorem below assumes.) -/
def surroundingStart (t : List Nat) (cursor_index : Nat) : Nat :=
  boundaryUp t (cursor_index
    - (MAX_SURROUNDING_BYTES - (surroundingEnd t cursor_index - cursor_index)))

/-- `TextField::surrounding_text`: the window of at most
`MAX_SURROUNDING_BYTES` bytes around the cursor, plus the cursor/selection
byte offsets relative to the window's start. -/
def surrounding_text (st : TextField) : List Nat × Int × Int :=
  let cursor_index := st.cursor_byte
  let t := st.text
  let e := surroundingEnd t cursor_index
  let s := surroundingStart t cursor_index
  let cursors : Int × Int :=
    match st.selection with
    | some (a, b) => ((a : Int), (b : Int))
    | none => ((cursor_index : Int), (cursor_index : Int))
  ((t.drop s).take (e - s), cursors.1 - (s : Int), cursors.2 - (s : Int))

/-- The word-boundary scan of the `DoubleTap` arm of `TextField::touch_up`
(the `for (i, c) in text.char_indices()` loop with its early `break`). -/
def wordScanAux (b : Int) : List (Nat × Char) → Int → Int → Int × Int
  | [], word_start, word_end => (word_start, word_end)
  | (i, c) :: rest, word_start, word_end =>
    if (i : Int) + 1 < b && !is_alphanumeric c then
      wordScanAux b rest ((i : Int) + 1) word_end
    else if b < (i : Int) && !is_alphanumeric c then
      (word_start, (i : Int))
    else
      wordScanAux b rest word_start word_end

/-- The `(word_start, word_end)` pair the `DoubleTap` arm selects for a tap
at byte index `b`. -/
def wordBounds (t : List Nat) (b : Int) : Int × Int :=
  wordScanAux b (utf8Chars t) 0 (t.length : Int)

/-- `TextField::touch_up`.  The hit test mapping the release position to a
`(index, offset)` cursor is the external shaping provider
(`layout.xy_to_index`, modelled from the spec: "map an (x,y) coordinate to
a `(visual_index, index, offset)` triple"); the model takes its result as
the `index`/`offset` arguments. -/
def touch_up (st : TextField) (index offset : Nat) : TextField :=
  match st.touch_state.action with
  | .Drag | .DragSelectionStart | .DragSelectionEnd | .Focus => st
  | act =>
    let byte_index : Int := cursorByteIndex st.text index offset
    let st :=
      match act with
      | .Tap =>
        let st := { st with cursor_index := index, cursor_offset := offset }
        let st := st.clear_selection
        { st with text_input_dirty := true, dirty := true }
      | .DoubleTap =>
        let (word_start, word_end) := wordBounds st.text byte_index
        st.select word_start word_end
      | _ =>
        -- `TripleTap` (the drag/focus actions returned above).
        st.select_all
    st.set_focused true

/-- The `TouchAction::Drag` arm of `TextField::touch_motion`: scroll the
text by the incremental delta, then clamp. -/
def drag_scroll (st : TextField) (delta_x : ℤ) : TextField :=
  let st := { st with scroll_offset := st.scroll_offset + delta_x }
  let st := st.clamp_scroll_offset
  { st with dirty := true }

/-- `TextField::set_width`. -/
def set_width (st : TextField) (width : ℤ) : TextField :=
  let st := { st with width := width }
  let st := st.update_scroll_offset
  { st with dirty := true }

/-- The claimed scroll-offset invariant of C9:
`scroll_offset ∈ [−max(content_width − viewport_width, 0), 0]`. -/
def scroll_in_bounds (st : TextField) : Bool :=
  decide (-(max (contentWidth st.text - st.width) 0) ≤ st.scroll_offset) &&
  decide (st.scroll_offset ≤ 0)

end TextField

namespace TouchState

/-- `TouchState::down`: classify a touch press, escalating multi-taps when
it falls within the configured interval and distance of the previous one. -/
def down (ts : TouchState) (config : Config) (time : Nat) (position : Pos)
    (byte_index : Int) (focused : Bool) : TouchState :=
  let delta := position - ts.last_position
  let action :=
    if !focused then TouchAction.Focus
    else if time ≤ ts.last_time + config.max_multi_tap
        && delta.sq ≤ config.max_tap_distance then
      match ts.action with
      | .Tap => TouchAction.DoubleTap
      | .DoubleTap => TouchAction.TripleTap
      | _ => TouchAction.Tap
    else TouchAction.Tap
  { action := action, start_byte_index := byte_index
    last_motion_position := position, last_position := position
    last_time := time }

/-- `TouchState::motion`: returns the updated state and the reported
delta. -/
def motion (ts : TouchState) (config : Config) (position : Pos)
    (selection : Option (Int × Int)) : TouchState × Pos :=
  let delta := position - ts.last_motion_position
  let ts := { ts with last_motion_position := position }
  if ts.action ≠ .Tap then (ts, delta)
  else
    let delta := position - ts.last_position
    if delta.sq ≤ config.max_tap_distance then (ts, delta)
    else
      let action :=
        match selection with
        | some (s, e) =>
          let start_delta := (ts.start_byte_index - s).natAbs
          let end_delta := (ts.start_byte_index - e).natAbs
          if end_delta ≤ start_delta && end_delta < 2 then
            TouchAction.DragSelectionEnd
          else if start_delta < 2 then
            TouchAction.DragSelectionStart
          else
            TouchAction.Drag
        | none => TouchAction.Drag
      ({ ts with action := action }, delta)

end TouchState

/-! ## Invariant, edit operations and concrete states -/

/-- Validity of an optional selection on a buffer: non-empty, and both
bounds on char boundaries. -/
def SelOk (t : List Nat) : Option (Nat × Nat) → Prop
  | none => True
  | some (s, e) => s < e ∧ isBoundary t s = true ∧ isBoundary t e = true

instance SelOk.decide (t : List Nat) : (o : Option (Nat × Nat)) → Decidable (SelOk t o)
  | none => .isTrue trivial
  | some (_, _) => inferInstanceAs (Decidable (_ ∧ _ ∧ _))

/-- The boundary invariant on a field state. -/
def Inv (st : TextField) : Prop :=
  isBoundary st.text 0 = true ∧
  isBoundary st.text (st.cursor_index + st.cursor_offset) = true ∧
  SelOk st.text st.selection

instance Inv.decide (st : TextField) : Decidable (Inv st) :=
  inferInstanceAs (Decidable (_ ∧ _ ∧ _))

/-- The editing operations claim C2 quantifies over: character key presses,
backspace, forward delete, cursor keys, return, and the two text-insertion
entry points (`paste` and the IME's `commit_string`); a selection deletion
is the `delete_selected` call any of these performs when a selection is
active. -/
inductive EditOp where
  | key (k : TextField.Key)
  | paste (s : List Char)
  | commit_string (s : List Char)
deriving DecidableEq, Repr

/-- Apply one editing operation to the field. -/
def applyEdit (st : TextField) (op : EditOp) : TextField :=
  match op with
  | .key k => st.press_key k
  | .paste s => st.paste s
  | .commit_string s => st.commit_string s

/-- The state `TextField::new` builds (empty buffer, zero cursor, no
selection, empty preedit, `ChangeCause::Other`, both dirty flags set). -/
def initField : TextField :=
  { text := [], cursor_index := 0, cursor_offset := 0, scroll_offset := 0,
    selection := none, preedit := ([], 0, 0), change_cause := .Other,
    touch_state := initTouchState, width := 0, focused := false,
    text_input_dirty := true, dirty := true }

/-- The 10000-byte ASCII buffer of the claim's concrete instance, with the
cursor at byte 5000. -/
def asciiField : TextField :=
  { text := List.replicate 10000 97, cursor_index := 5000, cursor_offset := 0,
    scroll_offset := 0, selection := none, preedit := ([], 0, 0),
    change_cause := .Other, touch_state := initTouchState, width := 100,
    focused := true, text_input_dirty := false, dirty := false }

/-- The "é" buffer: a single two-byte character, cursor at byte 0. -/
def eAcuteField : TextField :=
  { text := [0xC3, 0xA9], cursor_index := 0, cursor_offset := 0,
    scroll_offset := 0, selection := none, preedit := ([], 0, 0),
    change_cause := .Other, touch_state := initTouchState, width := 100,
    focused := true, text_input_dirty := false, dirty := false }

/-- The ASCII buffer `"abc"` with the cursor at byte 2. -/
def abcField : TextField :=
  { text := [97, 98, 99], cursor_index := 2, cursor_offset := 0,
    scroll_offset := 0, selection := none, preedit := ([], 0, 0),
    change_cause := .Other, touch_state := initTouchState, width := 100,
    focused := true, text_input_dirty := false, dirty := false }

/-- A focused field with an active selection and a non-empty preedit. -/
def preeditField : TextField :=
  { text := [97], cursor_index := 0, cursor_offset := 0, scroll_offset := 0,
    selection := some (0, 1), preedit := ([98], 0, 0), change_cause := .Other,
    touch_state := initTouchState, width := 100, focused := true,
    text_input_dirty := false, dirty := false }

/-- The ASCII buffer `"abcd"` with bytes 1..3 selected. -/
def abcdSelField : TextField :=
  { text := [97, 98, 99, 100], cursor_index := 0, cursor_offset := 0,
    scroll_offset := 0, selection := some (1, 3), preedit := ([], 0, 0),
    change_cause := .Other, touch_state := initTouchState, width := 100,
    focused := true, text_input_dirty := false, dirty := false }

/-- A field scrolled fully left: 100 characters of 10px on a 100px
viewport, scroll offset −900 (exactly the lower bound), cursor on the last
character. -/
def wideField : TextField :=
  { text := List.replicate 100 97, cursor_index := 99, cursor_offset := 0,
    scroll_offset := -900, selection := none, preedit := ([], 0, 0),
    change_cause := .Other, touch_state := initTouchState, width := 100,
    focused := true, text_input_dirty := false, dirty := false }

/-- The fixed touch position of the C6 scenario (far enough from the
default state's origin that the very first down cannot escalate). -/
def tapP : Pos := ⟨100, 0⟩

/-- Downs at t = 0, 250, 400, 500 at the same position on a focused
field. -/
def downSeq1 : TouchState := initTouchState.down defaultConfig 0 tapP 0 true

def downSeq2 : TouchState := downSeq1.down defaultConfig 250 tapP 0 true

def downSeq3 : TouchState := downSeq2.down defaultConfig 400 tapP 0 true

def downSeq4 : TouchState := downSeq3.down defaultConfig 500 tapP 0 true

/-- A second down 500 ms after the first (exceeding the 300 ms interval). -/
def lateSecond : TouchState := downSeq1.down defaultConfig 500 tapP 0 true

/-- The claim's word-boundary rule, following its words: the word starts
right after the last non-alphanumeric character strictly before the tap
point (default 0) and ends at the first non-alphanumeric character at or
after the tap point (default text length). -/
def specWordBounds (t : List Nat) (b : Int) : Int × Int :=
  (match ((utf8Chars t).filter fun p =>
      !is_alphanumeric p.2 && decide ((p.1 : Int) < b)).getLast? with
   | some p => (p.1 : Int) + (utf8EncodeChar p.2).length
   | none => 0,
   match (utf8Chars t).find? (fun p =>
      !is_alphanumeric p.2 && decide (b ≤ (p.1 : Int))) with
   | some p => (p.1 : Int)
   | none => (t.length : Int))

/-- What the source's scan actually computes: the word starts right after
the last non-alphanumeric character at byte `i` with `i + 1 < b` (so the
character immediately before the tap byte counts as part of the word), and
ends at the first non-alphanumeric character strictly after `b`. -/
def amendedWordStart (t : List Nat) (b : Int) : Int :=
  match ((utf8Chars t).filter fun p =>
      !is_alphanumeric p.2 && decide ((p.1 : Int) + 1 < b)).getLast? with
  | some p => (p.1 : Int) + 1
  | none => 0

/-- The end of the word per the source's scan: see `amendedWordStart`. -/
def amendedWordEnd (t : List Nat) (b : Int) : Int :=
  match (utf8Chars t).find? (fun p =>
      !is_alphanumeric p.2 && decide (b < (p.1 : Int))) with
  | some p => (p.1 : Int)
  | none => (t.length : Int)

/-- The `"a b"` buffer, double-tap gesture pending, focused. -/
def abField : TextField :=
  { text := [97, 32, 98], cursor_index := 0, cursor_offset := 0,
    scroll_offset := 0, selection := none, preedit := ([], 0, 0),
    change_cause := .Other,
    touch_state := { initTouchState with action := .DoubleTap }, width := 100,
    focused := true, text_input_dirty := false, dirty := false }

/-- The `"hello world"` buffer, double-tap gesture pending, focused. -/
def helloField : TextField :=
  { text := [104, 101, 108, 108, 111, 32, 119, 111, 114, 108, 100],
    cursor_index := 0, cursor_offset := 0, scroll_offset := 0,
    selection := none, preedit := ([], 0, 0), change_cause := .Other,
    touch_state := { initTouchState with action := .DoubleTap }, width := 200,
    focused := true, text_input_dirty := false, dirty := false }

/-! ## Boundary lemmas -/

/-- Whether a position starting a given suffix is a char boundary. -/
def headOk (l : List Nat) : Bool :=
  match l with
  | [] => true
  | b :: _ => !isCont b

theorem isBoundary_eq_headOk {t : List Nat} {i : Nat} (h : i ≤ t.length) :
    isBoundary t i = headOk (t.drop i) := by
  unfold isBoundary headOk
  cases hd : t.drop i with
  | nil =>
    have : t.length - i = 0 := by
      have := congrArg List.length hd
      simpa using this
    have : i = t.length := by omega
    simp [this]
  | cons b l => rfl

theorem isBoundary_length (t : List Nat) : isBoundary t t.length = true := by
  unfold isBoundary
  simp

theorem isBoundary_le {t : List Nat} {i : Nat} (h : isBoundary t i = true) :
    i ≤ t.length := by
  by_contra hlt
  push_neg at hlt
  unfold isBoundary at h
  rw [List.drop_eq_nil_of_le (by omega)] at h
  simp at h
  omega

theorem boundaryUpAux_eq {t : List Nat} {i : Nat} (fuel : Nat)
    (h : isBoundary t i = true) : boundaryUpAux fuel t i = i := by
  cases fuel with
  | zero => rfl
  | succ k => simp [boundaryUpAux, h]

theorem boundaryUp_eq {t : List Nat} {i : Nat} (h : isBoundary t i = true) :
    boundaryUp t i = i :=
  boundaryUpAux_eq _ h

theorem boundaryUpAux_ge (fuel : Nat) (t : List Nat) :
    ∀ i, i ≤ boundaryUpAux fuel t i := by
  induction fuel with
  | zero => intro i; exact Nat.le_refl i
  | succ k ih =>
    intro i
    unfold boundaryUpAux
    split
    · exact Nat.le_refl i
    · have := ih (i + 1)
      omega

theorem boundaryUp_ge (t : List Nat) (i : Nat) : i ≤ boundaryUp t i :=
  boundaryUpAux_ge _ t i

theorem isBoundary_boundaryUpAux {t : List Nat} (fuel : Nat) :
    ∀ i, i ≤ t.length → t.length ≤ i + fuel →
      isBoundary t (boundaryUpAux fuel t i) = true := by
  induction fuel with
  | zero =>
    intro i h1 h2
    have : i = t.length := by omega
    rw [this]
    exact isBoundary_length t
  | succ k ih =>
    intro i h1 h2
    unfold boundaryUpAux
    split
    · assumption
    · rename_i hb
      have hne : i ≠ t.length := fun he => by
        rw [he, isBoundary_length t] at hb
        exact hb rfl
      exact ih (i + 1) (by omega) (by omega)

theorem isBoundary_boundaryUp {t : List Nat} {i : Nat} (h : i ≤ t.length) :
    isBoundary t (boundaryUp t i) = true :=
  isBoundary_boundaryUpAux _ i h (by omega)

theorem boundaryUpAux_le {t : List Nat} {c : Nat} (fuel : Nat)
    (hc : isBoundary t c = true) :
    ∀ i, i ≤ c → boundaryUpAux fuel t i ≤ c := by
  induction fuel with
  | zero => intro i h; exact h
  | succ k ih =>
    intro i h
    unfold boundaryUpAux
    split
    · exact h
    · rename_i hb
      have hne : i ≠ c := fun he => by rw [he] at hb; simp [hc] at hb
      exact ih (i + 1) (by omega)

theorem boundaryUp_le {t : List Nat} {i c : Nat} (hc : isBoundary t c = true)
    (h : i ≤ c) : boundaryUp t i ≤ c :=
  boundaryUpAux_le _ hc i h

theorem boundaryUpAux_not_boundary {t : List Nat} (fuel : Nat) :
    ∀ i j, i ≤ j → j < boundaryUpAux fuel t i → isBoundary t j = false := by
  induction fuel with
  | zero =>
    intro i j h1 h2
    unfold boundaryUpAux at h2
    omega
  | succ k ih =>
    intro i j h1 h2
    unfold boundaryUpAux at h2
    split at h2
    · omega
    · rename_i hb
      rcases Nat.eq_or_lt_of_le h1 with he | hlt
      · cases he
        simpa using hb
      · exact ih (i + 1) j hlt h2

theorem boundaryUp_not_boundary {t : List Nat} {i j : Nat} (h1 : i ≤ j)
    (h2 : j < boundaryUp t i) : isBoundary t j = false :=
  boundaryUpAux_not_boundary _ i j h1 h2

theorem boundaryDown_le (t : List Nat) (i : Nat) : boundaryDown t i ≤ i := by
  induction i with
  | zero => simp [boundaryDown]
  | succ n ih =>
    unfold boundaryDown
    split
    · exact Nat.le_refl _
    · omega

theorem boundaryDown_ge {t : List Nat} {i c : Nat} (hc : isBoundary t c = true)
    (h : c ≤ i) : c ≤ boundaryDown t i := by
  induction i with
  | zero =>
    have : c = 0 := by omega
    subst this
    exact Nat.zero_le _
  | succ n ih =>
    unfold boundaryDown
    split
    · omega
    · rename_i hb
      have hne : c ≠ n + 1 := fun he => by rw [← he] at hb; simp [hc] at hb
      exact ih (by omega)

theorem isBoundary_boundaryDown {t : List Nat} {i c : Nat}
    (hc : isBoundary t c = true) (h : c ≤ i) :
    isBoundary t (boundaryDown t i) = true := by
  induction i with
  | zero =>
    have : c = 0 := by omega
    subst this
    simpa [boundaryDown] using hc
  | succ n ih =>
    unfold boundaryDown
    split
    · assumption
    · rename_i hb
      have hne : c ≠ n + 1 := fun he => by rw [← he] at hb; simp [hc] at hb
      exact ih (by omega)

theorem boundaryDown_eq {t : List Nat} {i s : Nat} (hs : isBoundary t s = true)
    (h1 : s ≤ i) (h2 : ∀ k, s < k → k ≤ i → isBoundary t k = false) :
    boundaryDown t i = s := by
  induction i with
  | zero =>
    have : s = 0 := by omega
    subst this
    rfl
  | succ n ih =>
    unfold boundaryDown
    split
    · rename_i hb
      rcases Nat.eq_or_lt_of_le h1 with he | hlt
      · omega
      · rw [h2 (n + 1) hlt (Nat.le_refl _)] at hb
        simp at hb
    · rename_i hb
      have hne : s ≠ n + 1 := fun he => by rw [← he] at hb; simp [hs] at hb
      exact ih (by omega) (fun k hk1 hk2 => h2 k hk1 (by omega))

theorem cursorByteIndex_eq {t : List Nat} {i o : Nat}
    (h : isBoundary t (i + o) = true) :
    TextField.cursorByteIndex t i o = i + o := by
  unfold TextField.cursorByteIndex
  split
  · exact boundaryUp_eq h
  · omega

/-! ## Splice / insert lemmas -/

theorem splice_length {a b : Nat} {t : List Nat} (ha : a ≤ t.length) :
    (splice a b t).length = a + (t.length - b) := by
  simp [splice]
  omega

theorem insertAt_length {i : Nat} {s t : List Nat} (hi : i ≤ t.length) :
    (insertAt i s t).length = t.length + s.length := by
  simp [insertAt]
  omega

theorem splice_drop {a b : Nat} (t : List Nat) (ha : a ≤ t.length) :
    (splice a b t).drop a = t.drop b := by
  unfold splice
  rw [List.drop_append_of_le_length (by simp; omega)]
  simp [Nat.min_eq_left ha]

theorem insertAt_drop {i : Nat} (s t : List Nat) (hi : i ≤ t.length) :
    (insertAt i s t).drop (i + s.length) = t.drop i := by
  unfold insertAt
  rw [List.drop_append_of_le_length (by simp [Nat.min_eq_left hi])]
  simp [Nat.min_eq_left hi]

/-- The drained range's start is a char boundary of the drained text
whenever the range's end was one of the original text. -/
theorem isBoundary_splice {a b : Nat} {t : List Nat} (ha : a ≤ t.length)
    (hb : isBoundary t b = true) : isBoundary (splice a b t) a = true := by
  have hblen : b ≤ t.length := isBoundary_le hb
  have hlen : a ≤ (splice a b t).length := by rw [splice_length ha]; omega
  rw [isBoundary_eq_headOk hlen, splice_drop t ha,
    ← isBoundary_eq_headOk hblen]
  exact hb

/-- The position just after an insertion is a char boundary of the new text
whenever the insertion point was one of the original text. -/
theorem isBoundary_insertAt {i : Nat} {s t : List Nat} (hi : i ≤ t.length) :
    isBoundary (insertAt i s t) (i + s.length) = isBoundary t i := by
  have hlen : i + s.length ≤ (insertAt i s t).length := by
    rw [insertAt_length hi]; omega
  rw [isBoundary_eq_headOk hlen, insertAt_drop s t hi, ← isBoundary_eq_headOk hi]

theorem isBoundary_zero {t : List Nat} :
    isBoundary t 0 = headOk t := by
  have : (0 : Nat) ≤ t.length := Nat.zero_le _
  rw [isBoundary_eq_headOk this]
  simp

theorem headOk_splice {a b : Nat} {t : List Nat} (h0 : isBoundary t 0 = true)
    (hb : isBoundary t b = true) : isBoundary (splice a b t) 0 = true := by
  rcases Nat.eq_zero_or_pos a with ha | ha
  · subst ha
    rw [isBoundary_zero]
    unfold splice
    simp only [List.take_zero, List.nil_append]
    rw [← isBoundary_eq_headOk (isBoundary_le hb)]
    exact hb
  · rw [isBoundary_zero] at h0 ⊢
    unfold splice
    cases t with
    | nil => simp [headOk]
    | cons c l =>
      cases a with
      | zero => omega
      | succ n => simpa [headOk, List.take_succ_cons] using h0

/-! ## UTF-8 encoding lemmas -/

theorem utf8EncodeChar_ne_nil (c : Char) : utf8EncodeChar c ≠ [] := by
  unfold utf8EncodeChar
  split
  · simp
  · split
    · simp
    · split
      · simp
      · simp

theorem headOk_utf8EncodeChar (c : Char) : headOk (utf8EncodeChar c) = true := by
  unfold utf8EncodeChar
  split
  · simp [headOk, isCont] <;> omega
  · split
    · simp [headOk, isCont] <;> omega
    · split
      · simp [headOk, isCont] <;> omega
      · simp [headOk, isCont] <;> omega

theorem headOk_utf8Encode (s : List Char) : headOk (utf8Encode s) = true := by
  cases s with
  | nil => rfl
  | cons c rest =>
    unfold utf8Encode
    simp only [List.flatMap_cons]
    rcases he : utf8EncodeChar c with _ | ⟨b, l⟩
    · exact absurd he (utf8EncodeChar_ne_nil c)
    · have := headOk_utf8EncodeChar c
      rw [he] at this
      simpa [headOk] using this

theorem headOk_insertAt {i : Nat} {s t : List Nat} (h0 : isBoundary t 0 = true)
    (hs : headOk s = true) : isBoundary (insertAt i s t) 0 = true := by
  rw [isBoundary_zero] at h0 ⊢
  unfold insertAt
  cases t with
  | nil =>
    simp only [List.take_nil, List.drop_nil, List.nil_append, List.append_nil]
    exact hs
  | cons c l =>
    cases i with
    | zero =>
      simp only [List.take_zero, List.nil_append]
      cases s with
      | nil => simpa [headOk] using h0
      | cons b m => simpa [headOk] using hs
    | succ n =>
      simpa [headOk] using h0

/-! ## Projection lemmas: the scroll functions only touch
`scroll_offset` and `dirty` -/

namespace TextField

variable (st : TextField)

@[simp] theorem clamp_scroll_offset_text :
    st.clamp_scroll_offset.text = st.text := rfl

@[simp] theorem clamp_scroll_offset_cursor_index :
    st.clamp_scroll_offset.cursor_index = st.cursor_index := rfl

@[simp] theorem clamp_scroll_offset_cursor_offset :
    st.clamp_scroll_offset.cursor_offset = st.cursor_offset := rfl

@[simp] theorem clamp_scroll_offset_selection :
    st.clamp_scroll_offset.selection = st.selection := rfl

@[simp] theorem clamp_scroll_offset_preedit :
    st.clamp_scroll_offset.preedit = st.preedit := rfl

@[simp] theorem clamp_scroll_offset_focused :
    st.clamp_scroll_offset.focused = st.focused := rfl

@[simp] theorem clamp_scroll_offset_text_input_dirty :
    st.clamp_scroll_offset.text_input_dirty = st.text_input_dirty := rfl

@[simp] theorem clamp_scroll_offset_change_cause :
    st.clamp_scroll_offset.change_cause = st.change_cause := rfl

@[simp] theorem update_scroll_offset_to_text (i : Nat) :
    (st.update_scroll_offset_to i).text = st.text := by
  unfold update_scroll_offset_to
  simp only [clamp_scroll_offset_text]
  split
  · rfl
  · split <;> rfl

@[simp] theorem update_scroll_offset_to_cursor_index (i : Nat) :
    (st.update_scroll_offset_to i).cursor_index = st.cursor_index := by
  unfold update_scroll_offset_to
  simp only [clamp_scroll_offset_cursor_index]
  split
  · rfl
  · split <;> rfl

@[simp] theorem update_scroll_offset_to_cursor_offset (i : Nat) :
    (st.update_scroll_offset_to i).cursor_offset = st.cursor_offset := by
  unfold update_scroll_offset_to
  simp only [clamp_scroll_offset_cursor_offset]
  split
  · rfl
  · split <;> rfl

@[simp] theorem update_scroll_offset_to_selection (i : Nat) :
    (st.update_scroll_offset_to i).selection = st.selection := by
  unfold update_scroll_offset_to
  simp only [clamp_scroll_offset_selection]
  split
  · rfl
  · split <;> rfl

@[simp] theorem update_scroll_offset_to_preedit (i : Nat) :
    (st.update_scroll_offset_to i).preedit = st.preedit := by
  unfold update_scroll_offset_to
  simp only [clamp_scroll_offset_preedit]
  split
  · rfl
  · split <;> rfl

@[simp] theorem update_scroll_offset_to_focused (i : Nat) :
    (st.update_scroll_offset_to i).focused = st.focused := by
  unfold update_scroll_offset_to
  simp only [clamp_scroll_offset_focused]
  split
  · rfl
  · split <;> rfl

@[simp] theorem update_scroll_offset_to_text_input_dirty (i : Nat) :
    (st.update_scroll_offset_to i).text_input_dirty = st.text_input_dirty := by
  unfold update_scroll_offset_to
  simp only [clamp_scroll_offset_text_input_dirty]
  split
  · rfl
  · split <;> rfl

@[simp] theorem update_scroll_offset_to_change_cause (i : Nat) :
    (st.update_scroll_offset_to i).change_cause = st.change_cause := by
  unfold update_scroll_offset_to
  simp only [clamp_scroll_offset_change_cause]
  split
  · rfl
  · split <;> rfl

@[simp] theorem update_scroll_offset_text :
    st.update_scroll_offset.text = st.text := by
  unfold update_scroll_offset update_scroll_offset_to_int
  split <;> simp
  split <;> simp

@[simp] theorem update_scroll_offset_cursor_index :
    st.update_scroll_offset.cursor_index = st.cursor_index := by
  unfold update_scroll_offset update_scroll_offset_to_int
  split <;> simp
  split <;> simp

@[simp] theorem update_scroll_offset_cursor_offset :
    st.update_scroll_offset.cursor_offset = st.cursor_offset := by
  unfold update_scroll_offset update_scroll_offset_to_int
  split <;> simp
  split <;> simp

@[simp] theorem update_scroll_offset_selection :
    st.update_scroll_offset.selection = st.selection := by
  unfold update_scroll_offset update_scroll_offset_to_int
  split <;> simp
  split <;> simp

@[simp] theorem update_scroll_offset_preedit :
    st.update_scroll_offset.preedit = st.preedit := by
  unfold update_scroll_offset update_scroll_offset_to_int
  split <;> simp
  split <;> simp

@[simp] theorem update_scroll_offset_focused :
    st.update_scroll_offset.focused = st.focused := by
  unfold update_scroll_offset update_scroll_offset_to_int
  split <;> simp
  split <;> simp

@[simp] theorem update_scroll_offset_text_input_dirty :
    st.update_scroll_offset.text_input_dirty = st.text_input_dirty := by
  unfold update_scroll_offset update_scroll_offset_to_int
  split <;> simp
  split <;> simp

@[simp] theorem update_scroll_offset_change_cause :
    st.update_scroll_offset.change_cause = st.change_cause := by
  unfold update_scroll_offset update_scroll_offset_to_int
  split <;> simp
  split <;> simp

end TextField

/-! ## The boundary invariant (claim C2)

All stored indices — the cursor's `index + offset` sum (whose translation
`cursor_byte` is then the identity) and the selection bounds — are char
boundaries of the buffer, and byte 0 starts a character. -/

/-- The invariant ignores the scroll offset and the boolean flags. -/
theorem inv_update_scroll_offset (st : TextField) :
    Inv st.update_scroll_offset ↔ Inv st := by
  unfold Inv
  simp

theorem inv_flags (st : TextField) (a b : Bool) :
    Inv { st with text_input_dirty := a, dirty := b } ↔ Inv st := Iff.rfl

theorem inv_delete_selected {st : TextField} {s e : Nat}
    (h0 : isBoundary st.text 0 = true)
    (hs : isBoundary st.text s = true) (he : isBoundary st.text e = true) :
    Inv (TextField.delete_selected { st with selection := none } (s, e)) := by
  have hsl : s ≤ st.text.length := isBoundary_le hs
  have hb : isBoundary (splice s e st.text) s = true := isBoundary_splice hsl he
  have hh : isBoundary (splice s e st.text) 0 = true := headOk_splice h0 he
  unfold TextField.delete_selected
  split
  · rename_i hcase
    simp only [Bool.and_eq_true, decide_eq_true_eq, beq_iff_eq] at hcase
    refine ⟨by simpa using hh, ?_, trivial⟩
    have harith : s - 1 + 1 = s := by omega
    simpa [harith] using hb
  · exact ⟨by simpa using hh, by simpa using hb, trivial⟩

theorem inv_moveCursorStep {st : TextField} (h : Inv st) (dir : Int) :
    Inv (st.moveCursorStep dir) := by
  obtain ⟨h0, hc, hsel⟩ := h
  unfold TextField.moveCursorStep TextField.moveCursorVisually
  split
  · rename_i i o heq
    -- the step produced a new `(index, 0)` cursor on a char boundary
    refine ⟨h0, ?_, hsel⟩
    split at heq
    · split at heq
      · rename_i hlt
        injection heq with heq'
        injection heq' with hi ho
        subst hi; subst ho
        simpa using isBoundary_boundaryUp (t := st.text)
          (i := TextField.cursorByteIndex st.text st.cursor_index st.cursor_offset + 1)
          (by omega)
      · exact absurd heq (by simp)
    · split at heq
      · rename_i hpos
        injection heq with heq'
        injection heq' with hi ho
        subst hi; subst ho
        simpa using isBoundary_boundaryDown (t := st.text) h0 (Nat.zero_le _)
      · exact absurd heq (by simp)
  · exact ⟨h0, hc, hsel⟩

theorem inv_move_cursor {st : TextField} (h : Inv st) (n : Int) :
    Inv (st.move_cursor n) := by
  unfold TextField.move_cursor
  rw [inv_flags, inv_update_scroll_offset]
  induction n.natAbs with
  | zero => simpa using h
  | succ k ih =>
    rw [Function.iterate_succ_apply']
    exact inv_moveCursorStep ih n

/-- Two states agreeing on the fields the invariant reads have the same
invariant. -/
theorem inv_congr {a b : TextField} (ht : a.text = b.text)
    (hci : a.cursor_index = b.cursor_index) (hco : a.cursor_offset = b.cursor_offset)
    (hs : a.selection = b.selection) : Inv a ↔ Inv b := by
  unfold Inv
  rw [ht, hci, hco, hs]

namespace TextField

variable (st : TextField)

@[simp] theorem moveCursorStep_text (d : Int) :
    (st.moveCursorStep d).text = st.text := by
  unfold moveCursorStep
  split <;> rfl

@[simp] theorem moveCursorStep_selection (d : Int) :
    (st.moveCursorStep d).selection = st.selection := by
  unfold moveCursorStep
  split <;> rfl

@[simp] theorem iterate_moveCursorStep_text (d : Int) (k : Nat) :
    ((moveCursorStep · d)^[k] st).text = st.text := by
  induction k with
  | zero => rfl
  | succ n ih => rw [Function.iterate_succ_apply', moveCursorStep_text, ih]

@[simp] theorem iterate_moveCursorStep_selection (d : Int) (k : Nat) :
    ((moveCursorStep · d)^[k] st).selection = st.selection := by
  induction k with
  | zero => rfl
  | succ n ih => rw [Function.iterate_succ_apply', moveCursorStep_selection, ih]

@[simp] theorem move_cursor_text (n : Int) :
    (st.move_cursor n).text = st.text := by
  unfold move_cursor
  simp

@[simp] theorem move_cursor_selection (n : Int) :
    (st.move_cursor n).selection = st.selection := by
  unfold move_cursor
  simp

@[simp] theorem move_cursor_preedit (n : Int) :
    (st.move_cursor n).preedit = st.preedit := by
  have : ∀ k, ((moveCursorStep · n)^[k] st).preedit = st.preedit := by
    intro k
    induction k with
    | zero => rfl
    | succ m ih =>
      rw [Function.iterate_succ_apply']
      rw [show ∀ s : TextField, (s.moveCursorStep n).preedit = s.preedit by
        intro s; unfold moveCursorStep; split <;> rfl]
      exact ih
  unfold move_cursor
  simp [this]

theorem move_cursor_cursor_index (n : Int) :
    (st.move_cursor n).cursor_index =
      ((moveCursorStep · n)^[n.natAbs] st).cursor_index := by
  unfold move_cursor
  simp

theorem move_cursor_cursor_offset (n : Int) :
    (st.move_cursor n).cursor_offset =
      ((moveCursorStep · n)^[n.natAbs] st).cursor_offset := by
  unfold move_cursor
  simp

/-- A right step with room evaluates to the next char boundary. -/
theorem moveCursorStep_right
    (h : cursorByteIndex st.text st.cursor_index st.cursor_offset < st.text.length) :
    st.moveCursorStep 1 =
      { st with
        cursor_index :=
          boundaryUp st.text (cursorByteIndex st.text st.cursor_index st.cursor_offset + 1)
        cursor_offset := 0 } := by
  unfold moveCursorStep moveCursorVisually
  simp [h]

/-- A left step with room evaluates to the previous char boundary. -/
theorem moveCursorStep_left
    (h : 0 < cursorByteIndex st.text st.cursor_index st.cursor_offset) :
    st.moveCursorStep (-1) =
      { st with
        cursor_index :=
          boundaryDown st.text (cursorByteIndex st.text st.cursor_index st.cursor_offset - 1)
        cursor_offset := 0 } := by
  unfold moveCursorStep moveCursorVisually
  simp [h]

end TextField

theorem inv_clear_selection {st : TextField} (h : Inv st) :
    Inv st.clear_selection := by
  obtain ⟨h0, hc, -⟩ := h
  exact ⟨h0, hc, trivial⟩

theorem inv_set_focused_false {st : TextField} (h : Inv st) :
    Inv (st.set_focused false) := by
  obtain ⟨h0, hc, hsel⟩ := h
  unfold TextField.set_focused
  simp only [Bool.false_and, Bool.not_false, Bool.true_and]
  split
  · rename_i hfalse
    exact absurd hfalse (by simp)
  · split
    · exact ⟨h0, hc, trivial⟩
    · exact ⟨h0, hc, hsel⟩

theorem cursorByteIndex_zero (t : List Nat) (i : Nat) :
    TextField.cursorByteIndex t i 0 = i := by
  unfold TextField.cursorByteIndex
  simp

theorem insertAt_drop_start {i : Nat} (s t : List Nat) (hi : i ≤ t.length) :
    (insertAt i s t).drop i = s ++ t.drop i := by
  unfold insertAt
  rw [List.drop_append_of_le_length (by simp [Nat.min_eq_left hi])]
  rw [List.drop_append_of_le_length (by simp [Nat.min_eq_left hi])]
  simp [List.drop_eq_nil_of_le, Nat.min_eq_left hi]

theorem isBoundary_insertAt_start {i : Nat} {s t : List Nat} (hi : i ≤ t.length)
    (hs : headOk s = true) (hb : isBoundary t i = true) :
    isBoundary (insertAt i s t) i = true := by
  have hlen : i ≤ (insertAt i s t).length := by rw [insertAt_length hi]; omega
  rw [isBoundary_eq_headOk hlen, insertAt_drop_start s t hi]
  cases s with
  | nil =>
    rw [isBoundary_eq_headOk hi] at hb
    simpa using hb
  | cons b m => simpa [headOk] using hs

@[simp] theorem delete_selected_selection (st : TextField) (sel : Nat × Nat) :
    (st.delete_selected sel).selection = st.selection := by
  unfold TextField.delete_selected
  split <;> rfl

@[simp] theorem delete_selected_preedit (st : TextField) (sel : Nat × Nat) :
    (st.delete_selected sel).preedit = st.preedit := by
  unfold TextField.delete_selected
  split <;> rfl

/-- Inserting at the cursor's byte index and stepping right preserves the
invariant (the `chr` arm of `press_key`). -/
theorem inv_insert_then_move {st1 : TextField} (h : Inv st1)
    (hns : st1.selection = none) (bytes : List Nat) (hhd : headOk bytes = true) :
    Inv ((({ st1 with
      text := insertAt st1.cursor_byte bytes st1.text } : TextField)).move_cursor 1) := by
  obtain ⟨h0, hc, -⟩ := h
  have hr : st1.cursor_byte = st1.cursor_index + st1.cursor_offset := cursorByteIndex_eq hc
  have hrl : st1.cursor_index + st1.cursor_offset ≤ st1.text.length := isBoundary_le hc
  refine inv_move_cursor ⟨?_, ?_, ?_⟩ 1
  · show isBoundary (insertAt st1.cursor_byte bytes st1.text) 0 = true
    exact headOk_insertAt h0 hhd
  · show isBoundary (insertAt st1.cursor_byte bytes st1.text)
      (st1.cursor_index + st1.cursor_offset) = true
    rw [← hr] at hc hrl ⊢
    exact isBoundary_insertAt_start hrl hhd hc
  · show SelOk _ st1.selection
    rw [hns]
    trivial

/-- The forward-delete composite (`Delete` with no selection and the cursor
not at the end): step right, step back, and drain the byte range between
the two cursor positions. -/
theorem inv_del_no_selection {st : TextField}
    (h0 : isBoundary st.text 0 = true)
    (hc : isBoundary st.text (st.cursor_index + st.cursor_offset) = true)
    (hns : st.selection = none)
    (hraw : st.cursor_index + st.cursor_offset < st.text.length) :
    Inv { (st.move_cursor 1).move_cursor (-1) with
          text := splice st.cursor_byte ((st.move_cursor 1).cursor_byte)
            (((st.move_cursor 1).move_cursor (-1)).text)
          text_input_dirty := true, dirty := true } := by
  have hb' : TextField.cursorByteIndex st.text st.cursor_index st.cursor_offset
      = st.cursor_index + st.cursor_offset := cursorByteIndex_eq hc
  have hstep1 := TextField.moveCursorStep_right st (by rw [hb']; exact hraw)
  have hM1ci : (st.move_cursor 1).cursor_index
      = boundaryUp st.text (st.cursor_index + st.cursor_offset + 1) := by
    rw [TextField.move_cursor_cursor_index]
    simp only [Int.natAbs_one, Function.iterate_one]
    rw [hstep1]
    dsimp only
    rw [hb']
  have hM1co : (st.move_cursor 1).cursor_offset = 0 := by
    rw [TextField.move_cursor_cursor_offset]
    simp only [Int.natAbs_one, Function.iterate_one]
    rw [hstep1]
  have hnb_b : isBoundary st.text
      (boundaryUp st.text (st.cursor_index + st.cursor_offset + 1)) = true :=
    isBoundary_boundaryUp (by omega)
  have hnb_ge : st.cursor_index + st.cursor_offset + 1
      ≤ boundaryUp st.text (st.cursor_index + st.cursor_offset + 1) :=
    boundaryUp_ge _ _
  have hM1byte : TextField.cursorByteIndex st.text
      (st.move_cursor 1).cursor_index (st.move_cursor 1).cursor_offset
      = boundaryUp st.text (st.cursor_index + st.cursor_offset + 1) := by
    rw [hM1ci, hM1co, cursorByteIndex_zero]
  have hstep2 := TextField.moveCursorStep_left (st.move_cursor 1)
    (by rw [TextField.move_cursor_text, hM1byte]; omega)
  have hM2ci : ((st.move_cursor 1).move_cursor (-1)).cursor_index
      = st.cursor_index + st.cursor_offset := by
    rw [TextField.move_cursor_cursor_index]
    simp only [Int.natAbs_neg, Int.natAbs_one, Function.iterate_one]
    rw [hstep2]
    dsimp only
    rw [TextField.move_cursor_text, hM1byte]
    refine boundaryDown_eq hc (by omega) ?_
    intro j hj1 hj2
    exact boundaryUp_not_boundary (t := st.text)
      (i := st.cursor_index + st.cursor_offset + 1) (by omega) (by omega)
  have hM2co : ((st.move_cursor 1).move_cursor (-1)).cursor_offset = 0 := by
    rw [TextField.move_cursor_cursor_offset]
    simp only [Int.natAbs_neg, Int.natAbs_one, Function.iterate_one]
    rw [hstep2]
  refine ⟨?_, ?_, ?_⟩
  · show isBoundary (splice st.cursor_byte ((st.move_cursor 1).cursor_byte)
      (((st.move_cursor 1).move_cursor (-1)).text)) 0 = true
    show isBoundary (splice (TextField.cursorByteIndex st.text st.cursor_index
      st.cursor_offset) (TextField.cursorByteIndex (st.move_cursor 1).text
      (st.move_cursor 1).cursor_index (st.move_cursor 1).cursor_offset)
      (((st.move_cursor 1).move_cursor (-1)).text)) 0 = true
    simp only [TextField.move_cursor_text]
    rw [hM1byte]
    exact headOk_splice h0 hnb_b
  · show isBoundary (splice (TextField.cursorByteIndex st.text st.cursor_index
      st.cursor_offset) (TextField.cursorByteIndex (st.move_cursor 1).text
      (st.move_cursor 1).cursor_index (st.move_cursor 1).cursor_offset)
      (((st.move_cursor 1).move_cursor (-1)).text))
      (((st.move_cursor 1).move_cursor (-1)).cursor_index
        + ((st.move_cursor 1).move_cursor (-1)).cursor_offset) = true
    simp only [TextField.move_cursor_text]
    rw [hM1byte, hb', hM2ci, hM2co]
    -- (goal is now a plain splice/boundary fact over `st.text`)
    have hle : st.cursor_index + st.cursor_offset ≤ st.text.length := by omega
    simpa using isBoundary_splice hle hnb_b
  · show SelOk _ ((st.move_cursor 1).move_cursor (-1)).selection
    rw [TextField.move_cursor_selection, TextField.move_cursor_selection, hns]
    trivial

/-- The backspace composite (no selection): step left, drain the byte range
between the new and old cursor positions, rescroll. -/
theorem inv_backspace_no_selection {st : TextField}
    (h0 : isBoundary st.text 0 = true)
    (hc : isBoundary st.text (st.cursor_index + st.cursor_offset) = true)
    (hns : st.selection = none) :
    Inv { (TextField.update_scroll_offset
      { st.move_cursor (-1) with
        text := splice ((st.move_cursor (-1)).cursor_byte) st.cursor_byte
          ((st.move_cursor (-1)).text) }) with
      text_input_dirty := true, dirty := true } := by
  have hb' : TextField.cursorByteIndex st.text st.cursor_index st.cursor_offset
      = st.cursor_index + st.cursor_offset := cursorByteIndex_eq hc
  have hM := @inv_move_cursor st ⟨h0, hc, by rw [hns]; trivial⟩ (-1)
  obtain ⟨-, mc, -⟩ := hM
  rw [TextField.move_cursor_text] at mc
  have hml : (st.move_cursor (-1)).cursor_index + (st.move_cursor (-1)).cursor_offset
      ≤ st.text.length := isBoundary_le mc
  have ha' : TextField.cursorByteIndex st.text (st.move_cursor (-1)).cursor_index
      (st.move_cursor (-1)).cursor_offset
      = (st.move_cursor (-1)).cursor_index + (st.move_cursor (-1)).cursor_offset :=
    cursorByteIndex_eq mc
  refine (inv_flags _ _ _).mpr ((inv_update_scroll_offset _).mpr ⟨?_, ?_, ?_⟩)
  · show isBoundary (splice (TextField.cursorByteIndex (st.move_cursor (-1)).text
      (st.move_cursor (-1)).cursor_index (st.move_cursor (-1)).cursor_offset)
      (TextField.cursorByteIndex st.text st.cursor_index st.cursor_offset)
      ((st.move_cursor (-1)).text)) 0 = true
    simp only [TextField.move_cursor_text]
    rw [hb']
    exact headOk_splice h0 hc
  · show isBoundary (splice (TextField.cursorByteIndex (st.move_cursor (-1)).text
      (st.move_cursor (-1)).cursor_index (st.move_cursor (-1)).cursor_offset)
      (TextField.cursorByteIndex st.text st.cursor_index st.cursor_offset)
      ((st.move_cursor (-1)).text))
      ((st.move_cursor (-1)).cursor_index + (st.move_cursor (-1)).cursor_offset)
      = true
    simp only [TextField.move_cursor_text]
    rw [hb', ha']
    exact isBoundary_splice hml hc
  · show SelOk _ (st.move_cursor (-1)).selection
    rw [TextField.move_cursor_selection, hns]
    trivial

theorem inv_press_key {st : TextField} (h : Inv st) (k : TextField.Key) :
    Inv (st.press_key k) := by
  obtain ⟨text, ci, co, so, sel, pre, cc, ts, w, f, tid, d⟩ := st
  obtain ⟨h0, hc, hsel⟩ := h
  dsimp only at h0 hc hsel
  cases k with
  | ret => exact inv_set_focused_false ⟨h0, hc, hsel⟩
  | left =>
    cases sel with
    | some p =>
      obtain ⟨s, e⟩ := p
      obtain ⟨hlt, hbs, hbe⟩ := hsel
      simp only [TextField.press_key]
      exact ⟨h0, by simpa using hbs, trivial⟩
    | none =>
      simp only [TextField.press_key]
      exact (inv_flags
        ((⟨text, ci, co, so, none, pre, cc, ts, w, f, tid, d⟩ : TextField).move_cursor
          (-1)) true true).mpr
        (@inv_move_cursor ⟨text, ci, co, so, none, pre, cc, ts, w, f, tid, d⟩
          ⟨h0, hc, trivial⟩ (-1))
  | right =>
    cases sel with
    | some p =>
      obtain ⟨s, e⟩ := p
      obtain ⟨hlt, hbs, hbe⟩ := hsel
      have helen : e ≤ text.length := isBoundary_le hbe
      simp only [TextField.press_key]
      split
      · have hlen1 : text.length - 1 + 1 = text.length := by omega
        exact ⟨h0, by simpa [hlen1] using isBoundary_length text, trivial⟩
      · exact ⟨h0, by simpa using hbe, trivial⟩
    | none =>
      simp only [TextField.press_key]
      exact (inv_flags
        ((⟨text, ci, co, so, none, pre, cc, ts, w, f, tid, d⟩ : TextField).move_cursor
          1) true true).mpr
        (@inv_move_cursor ⟨text, ci, co, so, none, pre, cc, ts, w, f, tid, d⟩
          ⟨h0, hc, trivial⟩ 1)
  | backspace =>
    cases sel with
    | some p =>
      obtain ⟨s, e⟩ := p
      obtain ⟨hlt, hbs, hbe⟩ := hsel
      simp only [TextField.press_key]
      exact (inv_flags
        (TextField.delete_selected
          ⟨text, ci, co, so, none, pre, cc, ts, w, f, tid, d⟩ (s, e)) true true).mpr
        (@inv_delete_selected
          ⟨text, ci, co, so, none, pre, cc, ts, w, f, tid, d⟩ s e h0 hbs hbe)
    | none =>
      simp only [TextField.press_key]
      exact @inv_backspace_no_selection
        ⟨text, ci, co, so, none, pre, cc, ts, w, f, tid, d⟩ h0 hc rfl
  | del =>
    cases sel with
    | some p =>
      obtain ⟨s, e⟩ := p
      obtain ⟨hlt, hbs, hbe⟩ := hsel
      simp only [TextField.press_key]
      exact (inv_flags
        (TextField.delete_selected
          ⟨text, ci, co, so, none, pre, cc, ts, w, f, tid, d⟩ (s, e)) true true).mpr
        (@inv_delete_selected
          ⟨text, ci, co, so, none, pre, cc, ts, w, f, tid, d⟩ s e h0 hbs hbe)
    | none =>
      simp only [TextField.press_key]
      split
      · exact ⟨h0, hc, trivial⟩
      · rename_i hne
        simp only [beq_iff_eq] at hne
        have hraw : ci + co < text.length := by
          have := isBoundary_le hc
          omega
        exact @inv_del_no_selection
          ⟨text, ci, co, so, none, pre, cc, ts, w, f, tid, d⟩ h0 hc rfl hraw
  | chr c =>
    cases sel with
    | some p =>
      obtain ⟨s, e⟩ := p
      obtain ⟨hlt, hbs, hbe⟩ := hsel
      simp only [TextField.press_key]
      exact (inv_flags _ true true).mpr
        (@inv_insert_then_move
          (TextField.delete_selected
            ⟨text, ci, co, so, none, pre, cc, ts, w, f, tid, d⟩ (s, e))
          (@inv_delete_selected
            ⟨text, ci, co, so, none, pre, cc, ts, w, f, tid, d⟩ s e h0 hbs hbe)
          (by simp) _ (headOk_utf8EncodeChar c))
    | none =>
      simp only [TextField.press_key]
      exact (inv_flags _ true true).mpr
        (@inv_insert_then_move
          ⟨text, ci, co, so, none, pre, cc, ts, w, f, tid, d⟩
          ⟨h0, hc, trivial⟩ rfl _ (headOk_utf8EncodeChar c))
/-- Inserting at the cursor's byte index and advancing the cursor index by
the inserted byte count preserves the invariant (the body of `paste`). -/
theorem inv_insert_advance {st1 : TextField} (h : Inv st1)
    (hns : st1.selection = none) (bytes : List Nat) (hhd : headOk bytes = true) :
    Inv { TextField.update_scroll_offset
      { st1 with text := insertAt st1.cursor_byte bytes st1.text
                 cursor_index := st1.cursor_index + bytes.length } with
      text_input_dirty := true, dirty := true } := by
  obtain ⟨h0, hc, -⟩ := h
  have hr : st1.cursor_byte = st1.cursor_index + st1.cursor_offset :=
    cursorByteIndex_eq hc
  have hrl : st1.cursor_index + st1.cursor_offset ≤ st1.text.length :=
    isBoundary_le hc
  refine (inv_flags _ _ _).mpr ((inv_update_scroll_offset _).mpr ⟨?_, ?_, ?_⟩)
  · show isBoundary (insertAt st1.cursor_byte bytes st1.text) 0 = true
    exact headOk_insertAt h0 hhd
  · show isBoundary (insertAt st1.cursor_byte bytes st1.text)
      (st1.cursor_index + bytes.length + st1.cursor_offset) = true
    have harith : st1.cursor_index + bytes.length + st1.cursor_offset
        = st1.cursor_index + st1.cursor_offset + bytes.length := by omega
    rw [harith, ← hr]
    rw [isBoundary_insertAt (by rw [hr]; exact hrl)]
    rw [hr]
    exact hc
  · show SelOk _ st1.selection
    rw [hns]
    trivial

theorem inv_pasteBytes {st : TextField} (h : Inv st) (bytes : List Nat)
    (hhd : headOk bytes = true) : Inv (st.pasteBytes bytes) := by
  obtain ⟨text, ci, co, so, sel, pre, cc, ts, w, f, tid, d⟩ := st
  obtain ⟨h0, hc, hsel⟩ := h
  dsimp only at h0 hc hsel
  cases sel with
  | some p =>
    obtain ⟨s, e⟩ := p
    obtain ⟨hlt, hbs, hbe⟩ := hsel
    simp only [TextField.pasteBytes]
    exact @inv_insert_advance
      (TextField.delete_selected
        ⟨text, ci, co, so, none, pre, cc, ts, w, f, tid, d⟩ (s, e))
      (@inv_delete_selected
        ⟨text, ci, co, so, none, pre, cc, ts, w, f, tid, d⟩ s e h0 hbs hbe)
      (by simp) bytes hhd
  | none =>
    simp only [TextField.pasteBytes]
    exact @inv_insert_advance
      ⟨text, ci, co, so, none, pre, cc, ts, w, f, tid, d⟩
      ⟨h0, hc, trivial⟩ rfl bytes hhd

theorem inv_paste {st : TextField} (h : Inv st) (s : List Char) :
    Inv (st.paste s) :=
  inv_pasteBytes h (utf8Encode s) (headOk_utf8Encode s)

theorem inv_commit_string {st : TextField} (h : Inv st) (s : List Char) :
    Inv (st.commit_string s) := by
  obtain ⟨h0, hc, hsel⟩ := h
  exact @inv_paste { st with change_cause := .InputMethod }
    ⟨h0, hc, hsel⟩ s

theorem inv_applyEdit {st : TextField} (h : Inv st) (op : EditOp) :
    Inv (applyEdit st op) := by
  cases op with
  | key k => exact inv_press_key h k
  | paste s => exact inv_paste h s
  | commit_string s => exact inv_commit_string h s

/-! ## Claim theorems -/

/-- **C2.**  For every sequence of insert and delete operations (character
key press, backspace, forward delete, cursor keys, return,
paste / `commit_string` — with a selection deletion performed inside any of
them that runs with an active selection), the stored cursor byte index
(derived from cursor index plus offset) and any stored selection bounds
are valid byte offsets falling on UTF-8 character boundaries of the buffer
after each operation completes: the boundary invariant `Inv` is preserved
by every such sequence, so no operation ever splits a multi-byte
character. -/
theorem C2_cursor_selection_boundaries (st : TextField) (ops : List EditOp)
    (h : Inv st) : Inv (ops.foldl applyEdit st) := by
  induction ops generalizing st with
  | nil => exact h
  | cons op rest ih => exact ih _ (inv_applyEdit h op)

/-- Witness for C2: from the initial field state, type `é`, then `x`,
backspace, paste `"ab"`, move left, forward-delete. -/
theorem C2_cursor_selection_boundaries_witness :
    Inv initField ∧
    Inv (List.foldl applyEdit initField
      [.key (.chr 'é'), .key (.chr 'x'), .key .backspace, .paste ['a', 'b'],
        .key .left, .key .del]) :=
  ⟨by decide, C2_cursor_selection_boundaries initField _ (by decide)⟩

/-- **C10.**  If no selection is active and the cursor sits at the end of
the text (`cursor_index + cursor_offset` equals the buffer's byte length),
pressing the forward-delete key is a complete no-op: the state — buffer,
cursor, selection, scroll offset, and both dirty flags — is returned
entirely unchanged, because the handler returns before any mutation. -/
theorem C10_forward_delete_noop (st : TextField)
    (hsel : st.selection = none)
    (hend : st.text.length = st.cursor_index + st.cursor_offset) :
    st.press_key .del = st := by
  obtain ⟨text, ci, co, so, sel, pre, cc, ts, w, f, tid, d⟩ := st
  dsimp only at hsel hend
  subst hsel
  simp [TextField.press_key, hend]

/-- Witness for C10: a one-byte buffer with the cursor at its end. -/
theorem C10_forward_delete_noop_witness :
    TextField.press_key
      ⟨[97], 1, 0, 0, none, ([], 0, 0), .Other, initTouchState, 0, true,
        false, false⟩ .del
    = ⟨[97], 1, 0, 0, none, ([], 0, 0), .Other, initTouchState, 0, true,
        false, false⟩ :=
  C10_forward_delete_noop _ rfl (by decide)

/-! ## C1: the surrounding-text window -/

theorem TextField.surroundingEnd_ge {t : List Nat} {c : Nat} (hc : isBoundary t c = true) :
    c ≤ TextField.surroundingEnd t c := by
  unfold TextField.surroundingEnd
  split
  · exact isBoundary_le hc
  · exact boundaryDown_ge hc (by omega)

theorem TextField.surroundingEnd_le_half (t : List Nat) (c : Nat) :
    TextField.surroundingEnd t c ≤ c + MAX_SURROUNDING_BYTES / 2 := by
  unfold TextField.surroundingEnd
  split
  · omega
  · exact le_trans (boundaryDown_le t _) (Nat.le_refl _)

theorem TextField.surroundingEnd_le_length (t : List Nat) (c : Nat) :
    TextField.surroundingEnd t c ≤ t.length := by
  unfold TextField.surroundingEnd
  split
  · exact Nat.le_refl _
  · rename_i hlt
    have := boundaryDown_le t (c + MAX_SURROUNDING_BYTES / 2)
    omega

theorem isBoundary_surroundingEnd {t : List Nat} {c : Nat}
    (hc : isBoundary t c = true) : isBoundary t (TextField.surroundingEnd t c) = true := by
  unfold TextField.surroundingEnd
  split
  · exact isBoundary_length t
  · exact isBoundary_boundaryDown hc (by omega)

theorem TextField.surroundingStart_le {t : List Nat} {c : Nat} (hc : isBoundary t c = true) :
    TextField.surroundingStart t c ≤ c := by
  unfold TextField.surroundingStart
  exact boundaryUp_le hc (Nat.sub_le _ _)

theorem isBoundary_surroundingStart {t : List Nat} {c : Nat}
    (hc : isBoundary t c = true) : isBoundary t (TextField.surroundingStart t c) = true := by
  unfold TextField.surroundingStart
  exact isBoundary_boundaryUp (le_trans (Nat.sub_le _ _) (isBoundary_le hc))

theorem surrounding_window_le {t : List Nat} {c : Nat}
    (hc : isBoundary t c = true) :
    TextField.surroundingEnd t c - TextField.surroundingStart t c ≤ MAX_SURROUNDING_BYTES := by
  have h1 := TextField.surroundingEnd_ge hc
  have h2 := TextField.surroundingEnd_le_half t c
  have h3 : c - (MAX_SURROUNDING_BYTES - (TextField.surroundingEnd t c - c))
      ≤ TextField.surroundingStart t c := by
    unfold TextField.surroundingStart
    exact boundaryUp_ge _ _
  have hM : MAX_SURROUNDING_BYTES = 4000 := rfl
  have hM2 : MAX_SURROUNDING_BYTES / 2 = 2000 := rfl
  omega

/-- **C1.**  `surrounding_text` returns a window of at most the fixed
`MAX_SURROUNDING_BYTES` (4000-byte) budget: the window end takes up to half
the budget after the cursor truncated back to a char boundary, the window
start takes the remaining budget before the cursor truncated forward to a
char boundary, the returned bytes are exactly the `[start, end)` slice of
the buffer, and the returned cursor/selection offsets are the absolute
offsets minus the window start (relative to the window, not the buffer). -/
theorem C1_surrounding_text (st : TextField)
    (hc : isBoundary st.text st.cursor_byte = true) :
    st.surrounding_text.1.length ≤ MAX_SURROUNDING_BYTES ∧
    st.surrounding_text.1
      = (st.text.drop (TextField.surroundingStart st.text st.cursor_byte)).take
          (TextField.surroundingEnd st.text st.cursor_byte
            - TextField.surroundingStart st.text st.cursor_byte) ∧
    TextField.surroundingEnd st.text st.cursor_byte
      ≤ st.cursor_byte + MAX_SURROUNDING_BYTES / 2 ∧
    isBoundary st.text (TextField.surroundingEnd st.text st.cursor_byte) = true ∧
    isBoundary st.text (TextField.surroundingStart st.text st.cursor_byte) = true ∧
    st.surrounding_text.2.1
      = (match st.selection with
         | some (a, _) => (a : Int)
         | none => (st.cursor_byte : Int))
        - (TextField.surroundingStart st.text st.cursor_byte : Int) ∧
    st.surrounding_text.2.2
      = (match st.selection with
         | some (_, b) => (b : Int)
         | none => (st.cursor_byte : Int))
        - (TextField.surroundingStart st.text st.cursor_byte : Int) := by
  have hlen : st.surrounding_text.1
      = (st.text.drop (TextField.surroundingStart st.text st.cursor_byte)).take
          (TextField.surroundingEnd st.text st.cursor_byte
            - TextField.surroundingStart st.text st.cursor_byte) := by
    unfold TextField.surrounding_text
    cases st.selection <;> rfl
  refine ⟨?_, hlen, TextField.surroundingEnd_le_half _ _, isBoundary_surroundingEnd hc,
    isBoundary_surroundingStart hc, ?_, ?_⟩
  · rw [hlen]
    have hwl := surrounding_window_le hc
    have hel := TextField.surroundingEnd_le_length st.text st.cursor_byte
    simp only [List.length_take, List.length_drop]
    omega
  · unfold TextField.surrounding_text
    cases st.selection with
    | none => rfl
    | some p => obtain ⟨a, b⟩ := p; rfl
  · unfold TextField.surrounding_text
    cases st.selection with
    | none => rfl
    | some p => obtain ⟨a, b⟩ := p; rfl

theorem isBoundary_replicate97 {n m : Nat} (h : m ≤ n) :
    isBoundary (List.replicate n 97) m = true := by
  have hlen : m ≤ (List.replicate n 97).length := by simpa using h
  rw [isBoundary_eq_headOk hlen, List.drop_replicate]
  cases hnm : n - m with
  | zero => rfl
  | succ k => rfl

theorem boundaryDown_eq_self {t : List Nat} {i : Nat}
    (h : isBoundary t i = true) : boundaryDown t i = i := by
  cases i with
  | zero => rfl
  | succ k => simp [boundaryDown, h]

/-- Witness for C1, including the claim's concrete instance: on a
10000-byte buffer with the cursor at byte 5000 the window runs from byte
3000 to byte 7000, is exactly 4000 bytes, and the returned cursor offsets
are 2000 (relative to the window start, not the buffer start). -/
theorem C1_surrounding_text_witness :
    isBoundary asciiField.text asciiField.cursor_byte = true ∧
    asciiField.surrounding_text.1.length ≤ MAX_SURROUNDING_BYTES ∧
    asciiField.surrounding_text.1.length = 4000 ∧
    asciiField.surrounding_text.2.1 = 2000 ∧
    asciiField.surrounding_text.2.2 = 2000 := by
  have hcb : asciiField.cursor_byte = 5000 := cursorByteIndex_zero _ _
  have hc : isBoundary asciiField.text asciiField.cursor_byte = true := by
    rw [hcb]
    exact isBoundary_replicate97 (by omega)
  have hlenr : asciiField.text.length = 10000 := by
    simp only [asciiField, List.length_replicate]
  have hE : TextField.surroundingEnd asciiField.text 5000 = 7000 := by
    unfold TextField.surroundingEnd
    rw [if_neg (by rw [hlenr]; norm_num [MAX_SURROUNDING_BYTES])]
    have harg : 5000 + MAX_SURROUNDING_BYTES / 2 = 7000 := by
      norm_num [MAX_SURROUNDING_BYTES]
    rw [harg]
    exact boundaryDown_eq_self (isBoundary_replicate97 (by omega))
  have hS : TextField.surroundingStart asciiField.text 5000 = 3000 := by
    unfold TextField.surroundingStart
    rw [hE]
    have harg : (5000 : Nat) - (MAX_SURROUNDING_BYTES - (7000 - 5000)) = 3000 := by
      norm_num [MAX_SURROUNDING_BYTES]
    rw [harg]
    exact boundaryUp_eq (isBoundary_replicate97 (by omega))
  obtain ⟨h1, h2, -, -, -, h6, h7⟩ := C1_surrounding_text asciiField hc
  rw [hcb] at h2 h6 h7
  rw [hE] at h2
  rw [hS] at h2 h6 h7
  refine ⟨hc, h1, ?_, ?_, ?_⟩
  · rw [h2]
    show (((List.replicate 10000 97).drop 3000).take (7000 - 3000)).length = 4000
    simp only [List.length_take, List.length_drop, List.length_replicate]
    omega
  · rw [h6]
    decide
  · rw [h7]
    decide

/-! ## C3: `delete_surrounding_text` -/

/-- A position below the drained range's start is still a char boundary of
the drained text when it was one before. -/
theorem isBoundary_splice_prefix {a b s : Nat} {t : List Nat} (hs : s ≤ a)
    (ha : a ≤ t.length) (hbb : isBoundary t b = true)
    (hsb : isBoundary t s = true) : isBoundary (splice a b t) s = true := by
  rcases Nat.eq_or_lt_of_le hs with he | hlt
  · subst he
    exact isBoundary_splice ha hbb
  · have hslen : s < t.length := by omega
    have hs' : s ≤ (splice a b t).length := by rw [splice_length ha]; omega
    rw [isBoundary_eq_headOk hs']
    unfold splice
    rw [List.drop_append_of_le_length (by simp; omega)]
    rw [List.drop_take]
    cases hd : t.drop s with
    | nil =>
      have : t.length - s = 0 := by simpa using congrArg List.length hd
      omega
    | cons x xs =>
      have hx : headOk (t.drop s) = true := by
        rw [← isBoundary_eq_headOk (by omega)]
        exact hsb
      rw [hd] at hx
      cases hv : a - s with
      | zero => omega
      | succ k => simpa [headOk] using hx

/-- Counterexample to C3 as stated: on the buffer `"é"` with the cursor at
byte 0, `delete_surrounding_text(0, 1)` computes the buffer-bounds-clamped
removal range `[0, 1)`, whose end splits the two-byte character — the
`String::drain` call panics (modelled as `none`) instead of clamping to a
character boundary, so the operation is not total. -/
theorem C3_counterexample :
    eAcuteField.delete_surrounding_text 0 1 = none := by
  rfl

/-- **C3 (amended).**  `delete_surrounding_text` clamps the removal range
to the buffer bounds — the end to the text length, the start to 0 by
saturating subtraction — and, whenever both clamped endpoints fall on
character boundaries (in particular always on an ASCII buffer), it
completes without error: the clamped range is drained and the cursor is
placed at the clamped start of the removed range with offset 0.  (Clamped
endpoints that split a multi-byte character panic in `String::drain`
instead; the operation is not total over all states, see
`C3_counterexample`.) -/
theorem C3_delete_surrounding_clamped (st : TextField)
    (before_length after_length : Nat)
    (hc : isBoundary st.text st.cursor_byte = true)
    (he : isBoundary st.text
      (min (st.cursor_byte + after_length) st.text.length) = true)
    (hs : isBoundary st.text (st.cursor_byte - before_length) = true) :
    ∃ st', st.delete_surrounding_text before_length after_length = some st' ∧
      st'.cursor_index = st.cursor_byte - before_length ∧
      st'.cursor_offset = 0 ∧
      st'.text = splice (st.cursor_byte - before_length) st.cursor_byte
        (splice st.cursor_byte
          (min (st.cursor_byte + after_length) st.text.length) st.text) := by
  have hcl : st.cursor_byte ≤ st.text.length := isBoundary_le hc
  have h1 : drainOk st.text st.cursor_byte
      (min (st.cursor_byte + after_length) st.text.length) = true := by
    unfold drainOk
    simp only [Bool.and_eq_true, decide_eq_true_eq]
    exact ⟨⟨by omega, hc⟩, he⟩
  have h2 : drainOk
      (splice st.cursor_byte (min (st.cursor_byte + after_length) st.text.length)
        st.text)
      (st.cursor_byte - before_length) st.cursor_byte = true := by
    unfold drainOk
    simp only [Bool.and_eq_true, decide_eq_true_eq]
    refine ⟨⟨by omega, ?_⟩, ?_⟩
    · exact isBoundary_splice_prefix (Nat.sub_le _ _) hcl he hs
    · exact isBoundary_splice hcl he
  unfold TextField.delete_surrounding_text
  rw [if_pos h1, if_pos h2]
  exact ⟨_, rfl, by simp, by simp, by simp⟩

/-- Witness for the amended C3: deleting one byte before and one after the
cursor of `"abc"` succeeds and puts the cursor at the clamped start. -/
theorem C3_delete_surrounding_clamped_witness :
    ∃ st', abcField.delete_surrounding_text 1 1 = some st' ∧
      st'.cursor_index = abcField.cursor_byte - 1 ∧
      st'.cursor_offset = 0 ∧
      st'.text = splice (abcField.cursor_byte - 1) abcField.cursor_byte
        (splice abcField.cursor_byte
          (min (abcField.cursor_byte + 1) abcField.text.length) abcField.text) :=
  C3_delete_surrounding_clamped abcField 1 1 (by decide) (by decide) (by decide)

/-! ## C7: blur and submit -/

/-- Counterexample to C7 as stated: blurring a focused field (and likewise
submitting) clears the selection, but the preedit is left untouched — after
`set_focused(false)` on a field whose preedit text is non-empty, the
preedit text is still there, so blur and submit do not leave "the preedit
empty". -/
theorem C7_counterexample :
    (preeditField.set_focused false).selection = none ∧
    (preeditField.set_focused false).preedit.1 = [98] ∧
    ¬(preeditField.set_focused false).preedit.1 = [] ∧
    preeditField.submit.preedit.1 = [98] := by
  decide

/-- **C7 (amended).**  Blurring the field (`set_focused(false)` while
focused) and submitting (Return) clear the selection and mark the IME
state dirty with focus off (so the next IME flush disables the transport);
the preedit is left unchanged by both (it is only ever replaced by a later
`set_preedit_string`). -/
theorem C7_blur_submit_clears_selection (st : TextField)
    (hf : st.focused = true) :
    (st.set_focused false).selection = none ∧
    (st.set_focused false).focused = false ∧
    (st.set_focused false).text_input_dirty = true ∧
    (st.set_focused false).preedit = st.preedit ∧
    st.submit.selection = none ∧
    st.submit.focused = false ∧
    st.submit.text_input_dirty = true ∧
    st.submit.preedit = st.preedit := by
  unfold TextField.submit TextField.set_focused
  simp [hf, TextField.clear_selection]

/-- Witness for the amended C7 at the concrete preedit state. -/
theorem C7_blur_submit_clears_selection_witness :
    preeditField.focused = true ∧
    (preeditField.set_focused false).selection = none ∧
    (preeditField.set_focused false).preedit = preeditField.preedit ∧
    preeditField.submit.selection = none :=
  ⟨by decide, (C7_blur_submit_clears_selection preeditField (by decide)).1,
    (C7_blur_submit_clears_selection preeditField (by decide)).2.2.2.1,
    (C7_blur_submit_clears_selection preeditField (by decide)).2.2.2.2.1⟩

/-! ## C8: delete-selection / re-insert round trip -/

@[simp] theorem delete_selected_text (st : TextField) (sel : Nat × Nat) :
    (st.delete_selected sel).text = splice sel.1 sel.2 st.text := by
  unfold TextField.delete_selected
  split <;> rfl

theorem delete_selected_cursor_byte {st : TextField} {s e : Nat}
    (hs : isBoundary st.text s = true) (he : isBoundary st.text e = true) :
    (st.delete_selected (s, e)).cursor_byte = s := by
  have hb : isBoundary (splice s e st.text) s = true :=
    isBoundary_splice (isBoundary_le hs) he
  unfold TextField.delete_selected
  split
  · rename_i hcase
    simp only [Bool.and_eq_true, decide_eq_true_eq, beq_iff_eq] at hcase
    show TextField.cursorByteIndex (splice s e st.text) (s - 1) 1 = s
    unfold TextField.cursorByteIndex
    rw [if_pos (by omega)]
    have h1 : s - 1 + 1 = s := by omega
    rw [h1]
    exact boundaryUp_eq hb
  · show TextField.cursorByteIndex (splice s e st.text) s 0 = s
    exact cursorByteIndex_zero _ _

/-- Draining `[s, e)` and re-inserting the drained bytes at `s` restores
the original list. -/
theorem splice_insert_roundtrip {s e : Nat} {t : List Nat} (hse : s ≤ e)
    (hel : e ≤ t.length) :
    insertAt s ((t.drop s).take (e - s)) (splice s e t) = t := by
  have hsl : s ≤ t.length := le_trans hse hel
  unfold insertAt splice
  rw [List.take_append_of_le_length (by simp [Nat.min_eq_left hsl])]
  rw [List.take_take]
  rw [List.drop_append_of_le_length (by simp [Nat.min_eq_left hsl])]
  simp only [Nat.min_self, List.drop_eq_nil_of_le (by
    simp [Nat.min_eq_left hsl] : (t.take s).length ≤ s), List.nil_append]
  rw [← List.take_add]
  rw [Nat.add_sub_cancel' hse]
  exact List.take_append_drop e t

/-- **C8.**  For every buffer with an active selection `[s, e)` (on char
boundaries, per the invariant), deleting the selection — which places the
cursor per the selection-deletion rule — and inserting the previously
selected bytes at the resulting cursor position, i.e. `paste` of the
selection's text, restores the original buffer content. -/
theorem C8_delete_insert_restores (st : TextField) (s e : Nat) (h : Inv st)
    (hsel : st.selection = some (s, e)) :
    (st.pasteBytes ((st.text.drop s).take (e - s))).text = st.text := by
  obtain ⟨text, ci, co, so, sel, pre, cc, ts, w, f, tid, d⟩ := st
  obtain ⟨h0, hc, hselok⟩ := h
  dsimp only at h0 hc hselok hsel
  subst hsel
  obtain ⟨hlt, hbs, hbe⟩ := hselok
  simp only [TextField.pasteBytes, TextField.update_scroll_offset_text]
  show insertAt
    (TextField.cursor_byte
      (TextField.delete_selected
        ⟨text, ci, co, so, none, pre, cc, ts, w, f, tid, d⟩ (s, e)))
    ((text.drop s).take (e - s))
    ((TextField.delete_selected
      ⟨text, ci, co, so, none, pre, cc, ts, w, f, tid, d⟩ (s, e)).text) = text
  rw [@delete_selected_cursor_byte
    ⟨text, ci, co, so, none, pre, cc, ts, w, f, tid, d⟩ s e hbs hbe]
  rw [delete_selected_text]
  exact splice_insert_roundtrip (le_of_lt hlt) (isBoundary_le hbe)

/-- Witness for C8: pasting the selected slice `"bc"` back over the
selection of `"abcd"` restores `"abcd"`. -/
theorem C8_delete_insert_restores_witness :
    (abcdSelField.pasteBytes
      ((abcdSelField.text.drop 1).take (3 - 1))).text = abcdSelField.text :=
  C8_delete_insert_restores abcdSelField 1 3 (by decide) (by decide)

/-! ## C9: the scroll-offset bounds -/

theorem scroll_in_bounds_clamp (st : TextField) :
    TextField.scroll_in_bounds st.clamp_scroll_offset = true := by
  unfold TextField.scroll_in_bounds TextField.clamp_scroll_offset
  simp only [Bool.and_eq_true, decide_eq_true_eq]
  constructor
  · exact le_max_right _ _
  · refine max_le (min_le_right _ _) ?_
    simp only [neg_nonpos]
    exact le_max_right _ _

theorem scroll_in_bounds_to (st : TextField) (i : Nat) :
    TextField.scroll_in_bounds (st.update_scroll_offset_to i) = true := by
  unfold TextField.update_scroll_offset_to
  exact scroll_in_bounds_clamp _

theorem scroll_in_bounds_update (st : TextField) :
    TextField.scroll_in_bounds st.update_scroll_offset = true := by
  unfold TextField.update_scroll_offset TextField.update_scroll_offset_to_int
  split
  · exact scroll_in_bounds_to _ _
  · split
    · exact scroll_in_bounds_to _ _
    · exact scroll_in_bounds_to _ _

set_option maxRecDepth 40000 in
/-- Counterexample to C9 as stated: `wideField` satisfies the scroll bound,
but pressing forward-delete on the last character shrinks the content by
one character without re-clamping (the `Delete` arm never calls
`update_scroll_offset` after the drain), leaving the stored offset −900
below the new lower bound −890 — so the bound does not hold after every
edit. -/
theorem C9_counterexample :
    TextField.scroll_in_bounds wideField = true ∧
    TextField.scroll_in_bounds (wideField.press_key .del) = false := by
  decide

/-- **C9 (amended).**  The scroll offset lies in
`[−max(content_width − viewport_width, 0), 0]` after every operation that
ends by clamping it: `clamp_scroll_offset` itself, every
`update_scroll_offset` (cursor motion, selection changes, preedit moves),
a scroll drag, a paste/commit, and a width change.  (Forward-delete with no
selection and a bare `delete_selected` do not re-clamp, and can leave the
offset below the shrunk content's lower bound until the next clamping
operation — see `C9_counterexample`.) -/
theorem C9_scroll_offset_bounds :
    (∀ st : TextField, TextField.scroll_in_bounds st.clamp_scroll_offset = true) ∧
    (∀ st : TextField, TextField.scroll_in_bounds st.update_scroll_offset = true) ∧
    (∀ (st : TextField) (dx : ℤ), TextField.scroll_in_bounds (st.drag_scroll dx) = true) ∧
    (∀ (st : TextField) (bytes : List Nat),
      TextField.scroll_in_bounds (st.pasteBytes bytes) = true) ∧
    (∀ (st : TextField) (w : ℤ), TextField.scroll_in_bounds (st.set_width w) = true) ∧
    (∀ (st : TextField) (n : Int), TextField.scroll_in_bounds (st.move_cursor n) = true) := by
  refine ⟨scroll_in_bounds_clamp, scroll_in_bounds_update, ?_, ?_, ?_, ?_⟩
  · intro st dx
    exact scroll_in_bounds_clamp _
  · intro st bytes
    unfold TextField.pasteBytes
    exact scroll_in_bounds_update _
  · intro st w
    unfold TextField.set_width
    exact scroll_in_bounds_update _
  · intro st n
    unfold TextField.move_cursor
    exact scroll_in_bounds_update _

/-! ## C5: near-caret drag classification -/

/-- **C5.**  When touch motion first exceeds the tap-distance threshold
while the current action is `Tap` and an active selection exists, the
classifier compares `|down_byte_index − selection.start|` and
`|down_byte_index − selection.end|` and picks the drag of whichever caret
is closer — a tie goes to the end caret — but only if that distance is
strictly less than 2; otherwise the gesture becomes a generic `Drag`. -/
theorem C5_near_caret_classification (ts : TouchState) (config : Config)
    (position : Pos) (s e : Int)
    (hact : ts.action = .Tap)
    (hdist : config.max_tap_distance < (position - ts.last_position).sq) :
    (ts.motion config position (some (s, e))).1.action =
      (if (ts.start_byte_index - e).natAbs ≤ (ts.start_byte_index - s).natAbs then
        (if (ts.start_byte_index - e).natAbs < 2 then
          TouchAction.DragSelectionEnd
        else TouchAction.Drag)
      else
        (if (ts.start_byte_index - s).natAbs < 2 then
          TouchAction.DragSelectionStart
        else TouchAction.Drag)) := by
  unfold TouchState.motion
  rw [if_neg (by simp [hact])]
  rw [if_neg (by exact not_le.mpr hdist)]
  dsimp only
  simp only [Bool.and_eq_true, decide_eq_true_eq]
  split_ifs <;> first | rfl | omega

/-- Witness for C5: the touch went down one byte left of the selection
start of `[4, 9)` and moved 100px: the start caret is grabbed. -/
theorem C5_near_caret_classification_witness :
    ((⟨.Tap, 0, ⟨0, 0⟩, ⟨0, 0⟩, 5⟩ : TouchState).motion defaultConfig
      ⟨100, 0⟩ (some (4, 9))).1.action = TouchAction.DragSelectionStart := by
  have h := C5_near_caret_classification ⟨.Tap, 0, ⟨0, 0⟩, ⟨0, 0⟩, 5⟩
    defaultConfig ⟨100, 0⟩ 4 9 rfl (by decide)
  rw [h]
  decide

/-! ## C6: multi-tap escalation -/

/-- **C6.**  With the configured 300 ms multi-tap interval and tap-distance
threshold 400 px², downs at t = 0, 250 ms, 400 ms at the same position
classify Tap, DoubleTap, TripleTap; a fourth identical down within the
interval resets to Tap (the cycle ends after triple); and a second down at
t = 500 ms after a down at t = 0 — beyond the 300 ms interval — classifies
Tap, not DoubleTap. -/
theorem C6_multitap_escalation :
    downSeq1.action = TouchAction.Tap ∧
    downSeq2.action = TouchAction.DoubleTap ∧
    downSeq3.action = TouchAction.TripleTap ∧
    downSeq4.action = TouchAction.Tap ∧
    lateSecond.action = TouchAction.Tap := by
  decide

/-! ## C4: double-tap word selection -/

theorem utf8CharLen_pos (b : Nat) : 0 < utf8CharLen b := by
  unfold utf8CharLen
  split_ifs <;> norm_num

theorem utf8CharsFuel_ge (fuel : Nat) :
    ∀ (t : List Nat) (i : Nat) (p : Nat × Char),
      p ∈ utf8CharsFuel fuel t i → i ≤ p.1 := by
  induction fuel with
  | zero => intro t i p hp; simp [utf8CharsFuel] at hp
  | succ k ih =>
    intro t i p hp
    cases t with
    | nil => simp [utf8CharsFuel] at hp
    | cons b rest =>
      simp only [utf8CharsFuel, List.mem_cons] at hp
      rcases hp with hp | hp
      · subst hp; exact Nat.le_refl _
      · have := ih _ _ _ hp
        have := utf8CharLen_pos b
        omega

theorem utf8CharsFuel_pairwise (fuel : Nat) :
    ∀ (t : List Nat) (i : Nat),
      (utf8CharsFuel fuel t i).Pairwise (fun p q => p.1 < q.1) := by
  induction fuel with
  | zero => intro t i; simp [utf8CharsFuel]
  | succ k ih =>
    intro t i
    cases t with
    | nil => simp [utf8CharsFuel]
    | cons b rest =>
      simp only [utf8CharsFuel]
      refine List.Pairwise.cons ?_ (ih _ _)
      intro q hq
      have h1 := utf8CharsFuel_ge k _ _ _ hq
      have h2 := utf8CharLen_pos b
      omega

theorem utf8Chars_pairwise (t : List Nat) :
    (utf8Chars t).Pairwise (fun p q => p.1 < q.1) :=
  utf8CharsFuel_pairwise _ t 0

theorem wordScanAux_cons (b : Int) (i : Nat) (c : Char) (rest : List (Nat × Char))
    (ws we : Int) :
    TextField.wordScanAux b ((i, c) :: rest) ws we =
      if (decide ((i : Int) + 1 < b) && !is_alphanumeric c) = true then
        TextField.wordScanAux b rest ((i : Int) + 1) we
      else if (decide (b < (i : Int)) && !is_alphanumeric c) = true then
        (ws, (i : Int))
      else TextField.wordScanAux b rest ws we := rfl

/-- The scan loop of the `DoubleTap` arm, characterized: the final
`word_start` is taken from the last list entry passing the start test (the
early `break` never hides one, since entries at or past the break point
are beyond the tap byte), and the final `word_end` from the first entry
passing the end test. -/
theorem wordScanAux_spec (b : Int) :
    ∀ (cs : List (Nat × Char)) (ws we : Int),
      cs.Pairwise (fun p q => p.1 < q.1) →
      TextField.wordScanAux b cs ws we =
        ((match (cs.filter fun p =>
            !is_alphanumeric p.2 && decide ((p.1 : Int) + 1 < b)).getLast? with
          | some p => (p.1 : Int) + 1
          | none => ws),
         (match cs.find? (fun p =>
            !is_alphanumeric p.2 && decide (b < (p.1 : Int))) with
          | some p => (p.1 : Int)
          | none => we)) := by
  intro cs
  induction cs with
  | nil => intro ws we _; rfl
  | cons hd rest ih =>
    intro ws we hpair
    obtain ⟨i, c⟩ := hd
    rw [List.pairwise_cons] at hpair
    obtain ⟨hgt, hpw⟩ := hpair
    by_cases hC1 : ((i : Int) + 1 < b ∧ is_alphanumeric c = false)
    · -- the start test passes: the head survives the filter and is beyond
      -- any earlier survivor, and the end test cannot pass here
      have hscan : TextField.wordScanAux b ((i, c) :: rest) ws we
          = TextField.wordScanAux b rest ((i : Int) + 1) we := by
        rw [wordScanAux_cons, if_pos (by simp [hC1.1, hC1.2])]
      rw [hscan, ih ((i : Int) + 1) we hpw]
      have hfilter : ((i, c) :: rest).filter (fun p =>
          !is_alphanumeric p.2 && decide ((p.1 : Int) + 1 < b))
          = (i, c) :: rest.filter (fun p =>
            !is_alphanumeric p.2 && decide ((p.1 : Int) + 1 < b)) := by
        rw [List.filter_cons_of_pos (by simp [hC1.1, hC1.2])]
      have hfind : ((i, c) :: rest).find? (fun p =>
          !is_alphanumeric p.2 && decide (b < (p.1 : Int)))
          = rest.find? (fun p => !is_alphanumeric p.2 && decide (b < (p.1 : Int))) := by
        rw [List.find?_cons_of_neg _ (by simp; intro _; omega)]
      rw [hfilter, hfind]
      cases hlast : (rest.filter (fun p =>
          !is_alphanumeric p.2 && decide ((p.1 : Int) + 1 < b))).getLast? with
      | none =>
        rw [List.getLast?_cons, hlast]
        rfl
      | some q =>
        rw [List.getLast?_cons, hlast]
        rfl
    · by_cases hC2 : (b < (i : Int) ∧ is_alphanumeric c = false)
      · -- the end test passes: the scan breaks here; no later entry can
        -- pass the start test because all later indices exceed the tap byte
        have hscan : TextField.wordScanAux b ((i, c) :: rest) ws we = (ws, (i : Int)) := by
          rw [wordScanAux_cons,
            if_neg (fun hx => hC1 (by simpa using hx)),
            if_pos (by simp [hC2.1, hC2.2])]
        rw [hscan]
        have hfilter : ((i, c) :: rest).filter (fun p =>
            !is_alphanumeric p.2 && decide ((p.1 : Int) + 1 < b)) = [] := by
          rw [List.filter_cons_of_neg (by simp; intro _; omega)]
          rw [List.filter_eq_nil_iff.mpr]
          intro q hq
          have := hgt q hq
          simp
          intro _
          omega
        have hfind : ((i, c) :: rest).find? (fun p =>
            !is_alphanumeric p.2 && decide (b < (p.1 : Int))) = some (i, c) := by
          rw [List.find?_cons_of_pos _ (by simp [hC2.1, hC2.2])]
        rw [hfilter, hfind]
        rfl
      · -- neither test passes: the head is skipped on both sides
        have hscan : TextField.wordScanAux b ((i, c) :: rest) ws we
            = TextField.wordScanAux b rest ws we := by
          rw [wordScanAux_cons,
            if_neg (fun hx => hC1 (by simpa using hx)),
            if_neg (fun hx => hC2 (by simpa using hx))]
        rw [hscan, ih ws we hpw]
        have hfilter : ((i, c) :: rest).filter (fun p =>
            !is_alphanumeric p.2 && decide ((p.1 : Int) + 1 < b))
            = rest.filter (fun p =>
              !is_alphanumeric p.2 && decide ((p.1 : Int) + 1 < b)) := by
          rw [List.filter_cons_of_neg
            (by simp; intro h1; exact le_of_not_lt (fun hlt => hC1 ⟨hlt, h1⟩))]
        have hfind : ((i, c) :: rest).find? (fun p =>
            !is_alphanumeric p.2 && decide (b < (p.1 : Int)))
            = rest.find? (fun p =>
              !is_alphanumeric p.2 && decide (b < (p.1 : Int))) := by
          rw [List.find?_cons_of_neg _
            (by simp; intro h1; exact le_of_not_lt (fun hlt => hC2 ⟨hlt, h1⟩))]
        rw [hfilter, hfind]

/-- Counterexample to C4 as stated: double-tapping `"a b"` at byte 2 (the
`'b'`) should, per the claim's scan rule, select `[2, 3)` (the word `"b"`,
starting right after the space at byte 1); the code's scan requires
`i + 1 < byte_index` and `i > byte_index`, so the space at byte 1 sets no
boundary and the code selects `[0, 3)` instead. -/
theorem C4_counterexample :
    (abField.touch_up 2 0).selection = some (0, 3) ∧
    specWordBounds abField.text 2 = (2, 3) ∧
    ¬((abField.touch_up 2 0).selection = some (2, 3)) := by
  refine ⟨by decide, by decide, ?_⟩
  intro h
  rw [show (abField.touch_up 2 0).selection = some (0, 3) from by decide] at h
  simp at h

/-- **C4 (amended).**  On touch release of a `DoubleTap` at tap byte index
`b`, the selected word range is computed as: start = the byte index right
after the last non-alphanumeric character at byte `i` with `i + 1 < b`
(defaulting to 0) — so a non-alphanumeric character immediately before the
tap byte is treated as part of the word — and end = the byte index of the
first non-alphanumeric character strictly after `b` (defaulting to the
text length); on `"hello world"` a double-tap at byte 2 (an `"l"` of
`"hello"`) still selects byte range `[0, 5)`. -/
theorem C4_word_selection :
    (∀ (t : List Nat) (b : Int),
      TextField.wordBounds t b = (amendedWordStart t b, amendedWordEnd t b)) ∧
    (helloField.touch_up 2 0).selection = some (0, 5) := by
  constructor
  · intro t b
    unfold TextField.wordBounds amendedWordStart amendedWordEnd
    rw [wordScanAux_spec b (utf8Chars t) 0 (t.length : Int) (utf8Chars_pairwise t)]
  · decide

end Gorm
